import Mathlib

/-!
# Verification of the vendor status-page aggregator

A shallow embedding, in Lean 4, of the text-normalization, deduplication,
classification, date-parsing, JSON-recovery, aggregation and chunking logic of
the scraper repository (files `common/digest_export.py`,
`scripts/build_digest_data.py`, `common/statuspage.py`, `vendors/qualys.py`,
`vendors/trendmicro.py`, `common/templates.py`, `run_digest.py`).

Strings are modelled as `List Char`.  Python string primitives used by the
code (`str.strip`, `str.splitlines`, `str.lower`, `re.sub` for the concrete
patterns appearing in the source) are embedded as executable functions over
`List Char`; whitespace and line-break character classes follow Python's
(`str.isspace`, `str.splitlines`) for the ASCII/Latin-1 range plus the main
Unicode line separators.  `str.lower` is embedded for the ASCII range
(`Char.toLower`), which is exact on every string the repository manipulates.
-/

namespace S2P

/-- Line-boundary characters of Python `str.splitlines`. -/
def isBreak (c : Char) : Bool :=
  c = '\n' || c = '\r' || c = '\x0b' || c = '\x0c' ||
  c = '\x1c' || c = '\x1d' || c = '\x1e' || c = '\u0085' ||
  c = '\u2028' || c = '\u2029'

/-- Whitespace characters: Python `str.strip` / regex `\s` (Unicode mode). -/
def isWS (c : Char) : Bool :=
  isBreak c || c = ' ' || c = '\t' || c = '\x1f' || c = '\u00A0'

/-- Python `str.lstrip()`. -/
def pyLstrip (s : List Char) : List Char := s.dropWhile (fun c => isWS c)

/-- Python `str.rstrip()`. -/
def pyRstrip (s : List Char) : List Char :=
  (s.reverse.dropWhile (fun c => isWS c)).reverse

/-- Python `str.strip()`. -/
def pyStrip (s : List Char) : List Char := pyRstrip (pyLstrip s)

/-- Python `str.splitlines()` (boundaries `\n`, `\r`, `\r\n` and the other
line-break characters; a trailing boundary does not produce a final empty
line). -/
def pySplitlines : List Char → List (List Char)
  | [] => []
  | '\r' :: '\n' :: rest => [] :: pySplitlines rest
  | c :: rest =>
    if isBreak c then [] :: pySplitlines rest
    else
      match pySplitlines rest with
      | [] => [[c]]
      | l :: ls => (c :: l) :: ls

/-- Helper for `collapseWS`: `inRun` records whether the current position is
inside a whitespace run whose single replacement space was already emitted. -/
def collapseWSAux : Bool → List Char → List Char
  | _, [] => []
  | inRun, c :: rest =>
    if isWS c then
      if inRun then collapseWSAux true rest else ' ' :: collapseWSAux true rest
    else c :: collapseWSAux false rest

/-- `re.sub(r"\s+", " ", s)`: each maximal run of whitespace becomes one
space. -/
def collapseWS (s : List Char) : List Char := collapseWSAux false s

/-- `ln.replace("\xa0", " ")` (the nbsp replacement in `_norm_for_dedupe`). -/
def replaceNbsp (s : List Char) : List Char :=
  s.map (fun c => if c = '\u00A0' then ' ' else c)

/-- ASCII `str.lower()`. -/
def pyLower (s : List Char) : List Char := s.map Char.toLower

/-- The per-line cleanup of `_norm_for_dedupe`
(`common/digest_export.py`): replace nbsp, strip the line, collapse internal
whitespace. -/
def lineClean (ln : List Char) : List Char :=
  collapseWS (pyStrip (replaceNbsp ln))

/-- `"\n".join lines` for a list of lines. -/
def joinNL : List (List Char) → List Char
  | [] => []
  | [l] => l
  | l :: ls => l ++ '\n' :: joinNL ls

/-- `_norm_for_dedupe` (`common/digest_export.py`, lines 117-131): split into
lines, clean each line, rejoin, strip, lowercase. -/
def normForDedupe (s : List Char) : List Char :=
  pyLower (pyStrip (joinNL ((pySplitlines s).map lineClean)))

/-- Loop of `_dedupe_list_of_blocks` with its `seen` set (modelled as the
list of normalized keys seen so far). -/
def dedupeBlocksGo (seen : List (List Char)) : List (List Char) → List (List Char)
  | [] => []
  | b :: rest =>
    let nb := normForDedupe b
    if nb ∈ seen then dedupeBlocksGo seen rest
    else pyStrip b :: dedupeBlocksGo (nb :: seen) rest

/-- `_dedupe_list_of_blocks` (`common/digest_export.py`, lines 133-142). -/
def dedupeListOfBlocks (blocks : List (List Char)) : List (List Char) :=
  dedupeBlocksGo [] blocks

/-- Loop of `dedupe_keep_order` with its `seen` set. -/
def dedupeKeepOrderGo (seen : List (List Char)) : List (List Char) → List (List Char)
  | [] => []
  | s :: rest =>
    if s ∈ seen then dedupeKeepOrderGo seen rest
    else s :: dedupeKeepOrderGo (s :: seen) rest

/-- `dedupe_keep_order` (`scripts/build_digest_data.py`, lines 59-67):
exact-equality dedup preserving first-seen order. -/
def dedupeKeepOrder (seq : List (List Char)) : List (List Char) :=
  dedupeKeepOrderGo [] seq

/-- The subsequence of `blocks` formed by the first occurrence of each
normalized value (written from the spec's wording of order preservation, as
the reference against which `_dedupe_list_of_blocks` is compared). -/
def firstOccurrencesGo (seen : List (List Char)) : List (List Char) → List (List Char)
  | [] => []
  | b :: rest =>
    if normForDedupe b ∈ seen then firstOccurrencesGo seen rest
    else b :: firstOccurrencesGo (normForDedupe b :: seen) rest

/-- First occurrences, by normalized value, in first-seen order. -/
def firstOccurrences (blocks : List (List Char)) : List (List Char) :=
  firstOccurrencesGo [] blocks

/-- `text.rfind("\n", start, stop)`: the largest index `i` with
`start ≤ i < stop` holding a newline, if any (`None` models Python's `-1`). -/
def pyRfindNl (text : List Char) (start stop : Nat) : Option Nat :=
  ((List.range text.length).filter
    (fun i => decide (start ≤ i ∧ i < stop ∧ text.getD i ' ' = '\n'))).getLast?

/-- The split point of one `chunk_text` iteration: `end = min(start + limit,
len(text))`, `nl = text.rfind("\n", start, end)`, with `nl = end` when the
newline is missing or does not advance (`nl == -1 or nl <= start`). -/
def chunkNl (text : List Char) (limit start : Nat) : Nat :=
  match pyRfindNl text start (min (start + limit) text.length) with
  | none => min (start + limit) text.length
  | some i => if i ≤ start then min (start + limit) text.length else i

/-- The `while start < len(text)` loop of `chunk_text`
(`common/templates.py`, lines 56-72, identical in `run_digest.py`); `fuel`
bounds the iteration count (the loop terminates whenever `limit >= 1`). -/
def chunkLoop (text : List Char) (limit : Nat) : Nat → Nat → List (List Char)
  | _, 0 => []
  | start, fuel + 1 =>
    if start < text.length then
      (text.drop start).take (chunkNl text limit start - start) ::
        chunkLoop text limit (chunkNl text limit start) fuel
    else []

/-- `chunk_text(text, limit)` (`common/templates.py`): texts within the limit
are yielded whole; longer texts are split at the last newline before the
limit when possible. -/
def chunkText (text : List Char) (limit : Nat) : List (List Char) :=
  if text.length ≤ limit then [text]
  else chunkLoop text limit 0 (text.length + 1)

/-- Shorthand: the character list of a string literal. -/
def S (s : String) : List Char := s.toList

/-- Python `needle in haystack` (substring test). -/
def containsSub (needle : List Char) : List Char → Bool
  | [] => needle.isEmpty
  | c :: rest => needle.isPrefixOf (c :: rest) || containsSub needle rest

/-- A JSON-like Python value (the heterogeneous data
`scripts/build_digest_data.py` and `vendors/trendmicro.py` operate on). -/
inductive JVal where
  | jnull : JVal
  | jbool : Bool → JVal
  | jnum : Int → JVal
  | jstr : List Char → JVal
  | jarr : List JVal → JVal
  | jobj : List (List Char × JVal) → JVal

/-- Python `dict.get(key)`: `none` when the key is missing. -/
def JVal.get (v : JVal) (key : List Char) : Option JVal :=
  match v with
  | .jobj fields =>
    match fields.find? (fun f => f.1 = key) with
    | some f => some f.2
    | none => none
  | _ => none

/-- `dict.get(key)` collapsing an explicit JSON `null` to "missing"
(Python code tests `x is not None`). -/
def JVal.getNN (v : JVal) (key : List Char) : Option JVal :=
  match v.get key with
  | some .jnull => none
  | some w => some w
  | none => none

/-- Decimal rendering of a natural number. -/
def natStr (n : Nat) : List Char := (Nat.repr n).toList

/-- Decimal rendering of an integer (Python `str(int)`). -/
def intStr (n : Int) : List Char :=
  if n < 0 then '-' :: natStr n.natAbs else natStr n.toNat

mutual
/-- Structural size of a `JVal` (bounds the recursion depth of the
fuel-based functions below). -/
def jvalSize : JVal → Nat
  | .jnull => 1
  | .jbool _ => 1
  | .jnum _ => 1
  | .jstr _ => 1
  | .jarr xs => 1 + jvalSizeList xs
  | .jobj fs => 1 + jvalSizeFields fs
def jvalSizeList : List JVal → Nat
  | [] => 0
  | v :: vs => jvalSize v + jvalSizeList vs
def jvalSizeFields : List (List Char × JVal) → Nat
  | [] => 0
  | f :: fs => jvalSize f.2 + jvalSizeFields fs
end

/-- Python `str()` / `repr()` of a `JVal`, with a structural fuel
(`jvalSize`-bounded); `quoted` distinguishes `repr` (inside containers) from
`str` (top level). -/
def jvalStrGo : Nat → Bool → JVal → List Char
  | 0, _, _ => []
  | fuel + 1, quoted, v =>
    match v with
    | .jnull => S "None"
    | .jbool b => if b then S "True" else S "False"
    | .jnum n => intStr n
    | .jstr s => if quoted then '\'' :: s ++ ['\''] else s
    | .jarr xs =>
      '[' :: List.intercalate (S ", ") (xs.map (fun w => jvalStrGo fuel true w)) ++ [']']
    | .jobj fields =>
      '\x7b' :: List.intercalate (S ", ")
          (fields.map (fun f => '\'' :: f.1 ++ S "': " ++ jvalStrGo fuel true f.2)) ++
        ['\x7d']

/-- Python `str(v)`. -/
def jvalStr (v : JVal) : List Char := jvalStrGo (jvalSize v) false v

/-- Python `x or ""` followed by `str(...)`: falsy values render empty. -/
def jvalStrOrEmpty (v : Option JVal) : List Char :=
  match v with
  | none => []
  | some .jnull => []
  | some (.jbool b) => if b then S "True" else []
  | some (.jnum n) => if n = 0 then [] else intStr n
  | some (.jstr s) => s
  | some (.jarr xs) => if xs.isEmpty then [] else jvalStr (.jarr xs)
  | some (.jobj fs) => if fs.isEmpty then [] else jvalStr (.jobj fs)

/-! HTML-to-text helpers of `scripts/build_digest_data.py` (`strip_tags`,
`anchor_to_text`), embedded as single-pass substitution scanners. -/

/-- Fuel-bounded substitution scanner: at each position, `try_` either
matches (returning the replacement and the remaining input after the match)
or the character is copied.  `fuel >= length` makes this total single-pass
regex substitution. -/
def subScanFuel (try_ : List Char → Option (List Char × List Char)) :
    Nat → List Char → List Char
  | 0, s => s
  | _ + 1, [] => []
  | fuel + 1, c :: rest =>
    match try_ (c :: rest) with
    | some (rep, remaining) => rep ++ subScanFuel try_ fuel remaining
    | none => c :: subScanFuel try_ fuel rest

/-- Run a substitution scanner over the whole input. -/
def subScan (try_ : List Char → Option (List Char × List Char))
    (s : List Char) : List Char :=
  subScanFuel try_ s.length s

/-- Matcher for `TAG_RE = (?is)<[^>]+>` (delete the tag). -/
def tagStripTry (s : List Char) : Option (List Char × List Char) :=
  match s with
  | '<' :: rest =>
    match rest.span (fun c => decide (c ≠ '>')) with
    | (inner, '>' :: rem) => if inner.isEmpty then none else some ([], rem)
    | _ => none
  | _ => none

/-- `TAG_RE.sub("", s)`. -/
def stripTagsOnly (s : List Char) : List Char := subScan tagStripTry s

/-- Regex word character (`\w`, ASCII range). -/
def isWordChar (c : Char) : Bool := c.isAlphanum || c = '_'

/-- Case-insensitive literal match; the pattern is given in lowercase.
Returns the remaining input. -/
def ciPrefix : List Char → List Char → Option (List Char)
  | [], s => some s
  | _, [] => none
  | p :: ps, c :: cs => if c.toLower = p then ciPrefix ps cs else none

/-- Scan inside an `<a ...>` tag (never crossing `>`) for `\bhref=['"]URL['"]`;
returns the URL group and the input after the closing quote. -/
def scanHrefInTag (prev : Char) : List Char → Option (List Char × List Char)
  | [] => none
  | c :: rest =>
    if c = '>' then none
    else
      (if ¬isWordChar prev then
        match ciPrefix (S "href") (c :: rest) with
        | some ('=' :: q :: r2) =>
          if q = '"' ∨ q = '\'' then
            match r2.span (fun x => decide (x ≠ '"' ∧ x ≠ '\'')) with
            | (url, q2 :: r3) =>
              if (q2 = '"' ∨ q2 = '\'') ∧ ¬url.isEmpty then some (url, r3)
              else none
            | _ => none
          else none
        | _ => none
      else none).orElse (fun _ => scanHrefInTag c rest)

/-- Try to match `</a\s*>` at the head; returns the remaining input. -/
def tryCloseA (s : List Char) : Option (List Char) :=
  match s with
  | '<' :: '/' :: a :: rest =>
    if a.toLower = 'a' then
      match rest.dropWhile (fun c => isWS c) with
      | '>' :: rem => some rem
      | _ => none
    else none
  | _ => none

/-- Lazy scan for the closing `</a\s*>`; returns the anchor body and the
remaining input. -/
def scanUntilCloseA : List Char → Option (List Char × List Char)
  | [] => none
  | c :: rest =>
    match tryCloseA (c :: rest) with
    | some rem => some ([], rem)
    | none =>
      match scanUntilCloseA rest with
      | some (t, rem) => some (c :: t, rem)
      | none => none

/-- Matcher for `A_HREF_RE` of `scripts/build_digest_data.py`
(`<a ... href=[...]>text</a>` to `text (URL)`); the replacement applies the
source's `repl`: strip both groups, delete tags inside the text, unescape. -/
def aHrefTry (htmlUnescapeF : List Char → List Char) (s : List Char) :
    Option (List Char × List Char) :=
  match s with
  | '<' :: a :: rest =>
    if (a.toLower == 'a') && (match rest.head? with
        | some c => !isWordChar c
        | none => true) then
      match scanHrefInTag a rest with
      | some (url, afterQuote) =>
        match afterQuote.span (fun c => decide (c ≠ '>')) with
        | (_, '>' :: body) =>
          match scanUntilCloseA body with
          | some (text, rem) =>
            some (htmlUnescapeF (stripTagsOnly (pyStrip text)) ++
              S " (" ++ pyStrip url ++ [')'], rem)
          | none => none
        | _ => none
      | none => none
    else none
  | _ => none

/-- Decode a decimal or hexadecimal numeric character reference body. -/
def parseCharRef (hex : Bool) (digits : List Char) : Option Char :=
  if digits.isEmpty then none
  else
    let base : Nat := if hex then 16 else 10
    let toDig : Char → Option Nat := fun c =>
      if c.isDigit then some (c.toNat - '0'.toNat)
      else if hex ∧ 'a' ≤ c.toLower ∧ c.toLower ≤ 'f' then
        some (c.toLower.toNat - 'a'.toNat + 10)
      else none
    match digits.foldl
      (fun acc c =>
        match acc, toDig c with
        | some n, some d => if n < 1114112 then some (n * base + d) else none
        | _, _ => none)
      (some 0) with
    | some n => if h : n.isValidChar then some (Char.ofNatAux n h) else none
    | none => none

/-- Matcher for `html.unescape`: the common named entities and numeric
character references. -/
def entityTry (s : List Char) : Option (List Char × List Char) :=
  match s with
  | '&' :: '#' :: rest =>
    (match rest with
     | x :: rest2 =>
       if x = 'x' ∨ x = 'X' then
         match rest2.span (fun c => decide (c ≠ ';')) with
         | (digits, ';' :: rem) =>
           match parseCharRef true digits with
           | some ch => some ([ch], rem)
           | none => none
         | _ => none
       else
         match (x :: rest2).span (fun c => decide (c ≠ ';')) with
         | (digits, ';' :: rem) =>
           match parseCharRef false digits with
           | some ch => some ([ch], rem)
           | none => none
         | _ => none
     | [] => none)
  | '&' :: rest =>
    (if (S "amp;").isPrefixOf rest then some (['&'], rest.drop 4)
     else if (S "lt;").isPrefixOf rest then some (['<'], rest.drop 3)
     else if (S "gt;").isPrefixOf rest then some (['>'], rest.drop 3)
     else if (S "quot;").isPrefixOf rest then some (['"'], rest.drop 5)
     else if (S "apos;").isPrefixOf rest then some (['\''], rest.drop 5)
     else if (S "nbsp;").isPrefixOf rest then some ([' '], rest.drop 5)
     else none)
  | _ => none

/-- `html.unescape` (named + numeric references). -/
def htmlUnescape (s : List Char) : List Char := subScan entityTry s

/-- `anchor_to_text` (`scripts/build_digest_data.py`, lines 41-47). -/
def anchorToText (s : List Char) : List Char :=
  subScan (aHrefTry htmlUnescape) s

/-- Space or tab (`[ \t]`). -/
def isSpTab (c : Char) : Bool := c = ' ' || c = '\t'

/-- Helper for `re.sub(r"[ \t]+", " ", s)`. -/
def collapseSTAux : Bool → List Char → List Char
  | _, [] => []
  | inRun, c :: rest =>
    if isSpTab c then
      if inRun then collapseSTAux true rest else ' ' :: collapseSTAux true rest
    else c :: collapseSTAux false rest

/-- `re.sub(r"[ \t]+", " ", s)`. -/
def collapseST (s : List Char) : List Char := collapseSTAux false s

/-- `strip_tags` (`scripts/build_digest_data.py`, lines 49-57): anchors to
`text (URL)`, delete remaining tags, unescape entities, collapse spaces and
tabs, strip. -/
def stripTags (s : List Char) : List Char :=
  pyStrip (collapseST (htmlUnescape (stripTagsOnly (anchorToText s))))

/-! `coerce_to_lines`, metrics and key observation of
`scripts/build_digest_data.py`. -/

/-- One `"name status"` line from a child dict (`coerce_to_lines`). -/
def childLine (c : JVal) : Option (List Char) :=
  match c with
  | .jobj _ =>
    let nm := pyStrip (stripTags (jvalStrOrEmpty (c.get (S "name"))))
    let st := pyStrip (stripTags (jvalStrOrEmpty (c.get (S "status"))))
    if ¬nm.isEmpty ∧ ¬st.isEmpty then some (nm ++ ' ' :: st)
    else if ¬nm.isEmpty then some nm
    else none
  | _ => none

/-- `coerce_to_lines` (`scripts/build_digest_data.py`, lines 142-215),
with structural fuel (`sizeOf`-bounded; the recursion always descends into
subvalues). -/
def coerceToLinesGo : Nat → JVal → List (List Char)
  | 0, _ => []
  | fuel + 1, raw =>
    match raw with
    | .jnull => []
    | .jobj _ =>
      (match raw.getNN (S "items") with
       | some items => coerceToLinesGo fuel items
       | none =>
        match raw.get (S "children") with
        | some (.jarr children) => children.filterMap childLine
        | _ =>
          let name := raw.get (S "name")
          let status := raw.get (S "status")
          if ¬(jvalStrOrEmpty name).isEmpty ∨ ¬(jvalStrOrEmpty status).isEmpty then
            let nm := pyStrip (stripTags (jvalStrOrEmpty name))
            let st := pyStrip (stripTags (jvalStrOrEmpty status))
            [pyStrip (nm ++ ' ' :: st)]
          else [])
    | .jstr s =>
      ((pySplitlines s).map (fun x => pyStrip (stripTags x))).filter
        (fun l => ¬l.isEmpty)
    | .jarr elements =>
      let out := elements.flatMap (fun el =>
        match el with
        | .jstr str0 =>
          let s1 := stripTags str0
          if s1.isEmpty then [] else [s1]
        | .jobj _ =>
          let nm := pyStrip (stripTags (jvalStrOrEmpty (el.get (S "name"))))
          let st := pyStrip (stripTags (jvalStrOrEmpty (el.get (S "status"))))
          let base := if ¬nm.isEmpty ∨ ¬st.isEmpty then [pyStrip (nm ++ ' ' :: st)] else []
          let withItems :=
            match el.getNN (S "items") with
            | some it => coerceToLinesGo fuel it
            | none => []
          let withChildren :=
            match el.getNN (S "children") with
            | some ch => coerceToLinesGo fuel ch
            | none => []
          base ++ withItems ++ withChildren
        | _ =>
          let s1 := stripTags (jvalStr el)
          if s1.isEmpty then [] else [s1])
      dedupeKeepOrder ((out.map pyStrip).filter (fun l => ¬l.isEmpty))
    | _ =>
      let s1 := stripTags (jvalStr raw)
      if s1.isEmpty then [] else [s1]

/-- `coerce_to_lines(raw)`. -/
def coerceToLines (raw : JVal) : List (List Char) :=
  coerceToLinesGo (jvalSize raw) raw

/-- The four metric counters of `count_metrics_per_vendor`. -/
structure Metrics where
  activos : Nat
  resueltosHoy : Nat
  nuevosHoy : Nat
  mantsHoy : Nat
deriving DecidableEq, Repr

/-- `ACTIVE_HINTS` (`scripts/build_digest_data.py`, line 307). -/
def ACTIVE_HINTS : List (List Char) :=
  [S "investigating", S "identified", S "monitoring", S "degraded",
   S "partial outage", S "major outage", S "not operational"]

/-- `MAINT_HINTS` (line 309). -/
def MAINT_HINTS : List (List Char) :=
  [S "maintenance", S "under maintenance", S "[scheduled]"]

/-- `count_metrics_per_vendor` (`scripts/build_digest_data.py`, lines
311-329); `today` is the module-level `TODAY` string (UTC date). -/
def countMetricsPerVendor (today : List Char) (v : JVal) : Metrics :=
  let inc := coerceToLines ((v.get (S "incidents_lines")).getD .jnull)
  let incLc := inc.map pyLower
  incLc.foldl
    (fun m ln =>
      if containsSub (S "no incidents") ln then m
      else
        let resolved := containsSub (S "resolved") ln
        let anyToday := containsSub today ln
        let m :=
          if (ACTIVE_HINTS.any (fun h => containsSub h ln)) ∧ ¬resolved then
            { m with activos := m.activos + 1 } else m
        let inicioToday := containsSub (S "inicio:") ln ∧ anyToday
        let finToday := containsSub (S "fin:") ln ∧ anyToday
        let m :=
          if inicioToday ∧ ¬resolved then { m with nuevosHoy := m.nuevosHoy + 1 } else m
        let m :=
          if finToday ∨ (resolved ∧ anyToday) then
            { m with resueltosHoy := m.resueltosHoy + 1 } else m
        let m :=
          if (MAINT_HINTS.any (fun h => containsSub h ln)) ∧ anyToday then
            { m with mantsHoy := m.mantsHoy + 1 } else m
        m)
    ⟨0, 0, 0, 0⟩

/-- The metric-accumulation loop of `main`
(`scripts/build_digest_data.py`, lines 386-393): totals are sums of the
per-vendor metrics. -/
def digestTotals (today : List Char) (vendors : List JVal) : Metrics :=
  vendors.foldl
    (fun acc v =>
      let m := countMetricsPerVendor today v
      ⟨acc.activos + m.activos, acc.resueltosHoy + m.resueltosHoy,
       acc.nuevosHoy + m.nuevosHoy, acc.mantsHoy + m.mantsHoy⟩)
    ⟨0, 0, 0, 0⟩

/-- `v.get("overall_ok") is True`. -/
def overallOkFlag (v : JVal) : Bool :=
  match v.get (S "overall_ok") with
  | some (.jbool true) => true
  | _ => false

/-- `build_obs_clave` (`scripts/build_digest_data.py`, lines 333-343). -/
def buildObsClave (vendors : List JVal) : List Char :=
  if vendors.isEmpty then S "No hay datos de fabricantes para este periodo."
  else
    let total := vendors.length
    let oks := vendors.countP (fun v => overallOkFlag v)
    if oks = total then
      S "Todos los fabricantes reportan estado operacional sin incidentes hoy."
    else
      let afect := total - oks
      if afect = 0 then S "Sin señales de incidencia relevantes hoy."
      else
        S "Se observa actividad en " ++ natStr afect ++ S " de " ++ natStr total ++
          S " fabricantes (ver detalle por fabricante)."

/-- Concrete vendor record with two active incident lines
(evaluation instance). -/
def vendorA : JVal :=
  .jobj [(S "name", .jstr (S "aruba")), (S "overall_ok", .jbool false),
    (S "incidents_lines", .jarr
      [.jstr (S "Investigating — Partial Outage (Gateway)"),
       .jstr (S "Identified — degraded performance")])]

/-- Concrete vendor record with no incidents (evaluation instance). -/
def vendorB : JVal :=
  .jobj [(S "name", .jstr (S "cyberark")), (S "overall_ok", .jbool true),
    (S "incidents_lines", .jarr [.jstr (S "No incidents reported today.")])]

/-- Concrete vendor record with one active incident line
(evaluation instance). -/
def vendorC : JVal :=
  .jobj [(S "name", .jstr (S "imperva")), (S "overall_ok", .jbool false),
    (S "incidents_lines", .jarr
      [.jstr (S "Investigating — Partial Outage (Dashboard)")])]

/-! Proof infrastructure for the normalization lemmas (not part of the
embedding itself). -/

/-- Append a character to the last line of a line list. -/
def appendLast : List (List Char) → Char → List (List Char)
  | [], c => [[c]]
  | [l], c => [l ++ [c]]
  | l :: ls, c => l :: appendLast ls c

/-- Whether the final character of `s` is a line break. -/
def lastBreak (s : List Char) : Bool :=
  match s.getLast? with
  | some d => isBreak d
  | none => false

/-- Drop leading empty lines. -/
def dropLeadingE (ls : List (List Char)) : List (List Char) :=
  ls.dropWhile (fun l => l.isEmpty)

/-- Drop trailing empty lines. -/
def dropTrailingE (ls : List (List Char)) : List (List Char) :=
  (ls.reverse.dropWhile (fun l => l.isEmpty)).reverse

/-- Drop leading and trailing empty lines. -/
def trimEmpties (ls : List (List Char)) : List (List Char) :=
  dropTrailingE (dropLeadingE ls)

/-- The trimmed cleaned-line decomposition underlying `_norm_for_dedupe`. -/
def normKey (s : List Char) : List (List Char) :=
  trimEmpties ((pySplitlines s).map lineClean)

/-- The value of `pySplitlines (s ++ [c])` as a function of `pySplitlines s`
(case characterization used in the append lemmas). -/
def splitAppendRHS (s : List Char) (c : Char) : List (List Char) :=
  if s.isEmpty then [if isBreak c then [] else [c]]
  else if isBreak c then
    if s.getLast? = some '\r' ∧ c = '\n' then pySplitlines s
    else if lastBreak s then pySplitlines s ++ [[]]
    else pySplitlines s
  else
    if lastBreak s then pySplitlines s ++ [[c]]
    else appendLast (pySplitlines s) c

/-- A cleaned line: empty, or beginning and ending with non-whitespace. -/
def GoodL (l : List Char) : Prop :=
  (∀ c, l.head? = some c → isWS c = false) ∧
  (∀ c, l.getLast? = some c → isWS c = false)

/-! ### A datetime model (proleptic Gregorian calendar, minute offsets)

Shared by the embeddings of `common/statuspage.py` and `vendors/qualys.py`
(`datetime.fromisoformat`, `strptime`, `astimezone(timezone.utc)`,
`strftime("%Y-%m-%d %H:%M UTC")`). -/

/-- A Python `datetime`: civil fields plus an optional fixed UTC offset in
minutes (`none` models a naive datetime). -/
structure PyDateTime where
  year : Nat
  month : Nat
  day : Nat
  hour : Nat
  minute : Nat
  second : Nat
  offsetMin : Option Int
deriving DecidableEq, Repr

def isLeap (y : Nat) : Bool := y % 4 = 0 && (y % 100 ≠ 0 || y % 400 = 0)

def daysInMonth (y mo : Nat) : Nat :=
  if mo = 2 then (if isLeap y then 29 else 28)
  else if mo = 4 ∨ mo = 6 ∨ mo = 9 ∨ mo = 11 then 30
  else 31

/-- Days since 0000-03-01 of a civil date (valid for `y ≥ 1`); the standard
era/year-of-era computation, all in `Nat`. -/
def daysFromCivilN (y mo d : Nat) : Nat :=
  let y2 := if mo ≤ 2 then y - 1 else y
  let era := y2 / 400
  let yoe := y2 % 400
  let doy := (153 * (if 2 < mo then mo - 3 else mo + 9) + 2) / 5 + (d - 1)
  let doe := yoe * 365 + yoe / 4 - yoe / 100 + doy
  era * 146097 + doe

/-- Inverse of `daysFromCivilN`. -/
def civilFromDaysN (z : Nat) : Nat × Nat × Nat :=
  let era := z / 146097
  let doe := z % 146097
  let yoe := (doe - doe / 1460 + doe / 36524 - doe / 146096) / 365
  let y := yoe + era * 400
  let doy := doe - (365 * yoe + yoe / 4 - yoe / 100)
  let mp := (5 * doy + 2) / 153
  let d := doy - (153 * mp + 2) / 5 + 1
  let mo := if mp < 10 then mp + 3 else mp - 9
  (if mo ≤ 2 then y + 1 else y, mo, d)

/-- Absolute timestamp in minutes (seconds dropped), shifting a fixed offset
to UTC; a naive datetime is taken at face value. -/
def absMinUTC (dt : PyDateTime) : Int :=
  (daysFromCivilN dt.year dt.month dt.day : Int) * 1440
    + dt.hour * 60 + dt.minute
    - (match dt.offsetMin with | some o => o | none => 0)

/-- Rebuild a UTC datetime from an absolute minute count, carrying seconds. -/
def fromAbsMin (t : Int) (sec : Nat) : PyDateTime :=
  let tn := t.toNat
  let c := civilFromDaysN (tn / 1440)
  ⟨c.1, c.2.1, c.2.2, tn % 1440 / 60, tn % 1440 % 60, sec, some 0⟩

/-- `dt.astimezone(timezone.utc)`.  A naive datetime is modelled as already
being in UTC (the code only feeds offset-aware values here). -/
def astimezoneUTC (dt : PyDateTime) : PyDateTime :=
  match dt.offsetMin with
  | none => { dt with offsetMin := some 0 }
  | some _ => fromAbsMin (absMinUTC dt) dt.second

def pad2 (n : Nat) : List Char := if n < 10 then '0' :: natStr n else natStr n

def pad4 (n : Nat) : List Char :=
  if n < 10 then S "000" ++ natStr n
  else if n < 100 then S "00" ++ natStr n
  else if n < 1000 then '0' :: natStr n
  else natStr n

/-- `dt.strftime("%Y-%m-%d %H:%M")`. -/
def strftimeYMDHM (dt : PyDateTime) : List Char :=
  pad4 dt.year ++ ['-'] ++ pad2 dt.month ++ ['-'] ++ pad2 dt.day ++ [' ']
    ++ pad2 dt.hour ++ [':'] ++ pad2 dt.minute

/-- `dt.strftime("%Y-%m-%d %H:%M UTC")`. -/
def strftimeYMDHMUTC (dt : PyDateTime) : List Char := strftimeYMDHM dt ++ S " UTC"

/-- ISO-8601 rendering with `Z` suffix (the spec's notation for UTC instants). -/
def isoZ (dt : PyDateTime) : List Char :=
  pad4 dt.year ++ ['-'] ++ pad2 dt.month ++ ['-'] ++ pad2 dt.day ++ ['T']
    ++ pad2 dt.hour ++ [':'] ++ pad2 dt.minute ++ [':'] ++ pad2 dt.second ++ ['Z']

/-- `(dt.year, dt.month, dt.day)`, i.e. `dt.date()`. -/
def dateTriple (dt : PyDateTime) : Nat × Nat × Nat := (dt.year, dt.month, dt.day)

/-- `s.replace("Z", "+00:00")`. -/
def replaceZ : List Char → List Char
  | [] => []
  | c :: rest => if c = 'Z' then S "+00:00" ++ replaceZ rest else c :: replaceZ rest

/-- Exactly `k` leading decimal digits, as a number plus the remaining input. -/
def takeDigits (k : Nat) (s : List Char) : Option (Nat × List Char) :=
  let ds := s.take k
  if ds.length = k ∧ ds.all Char.isDigit then
    some (ds.foldl (fun a c => a * 10 + (c.toNat - '0'.toNat)) 0, s.drop k)
  else none

def natOfDigits (ds : List Char) : Nat :=
  ds.foldl (fun a c => a * 10 + (c.toNat - '0'.toNat)) 0

/-- Optional `:SS[.ffffff]` part of an ISO time (fraction parsed, dropped). -/
def parseSecFrac (r : List Char) : Option (Nat × List Char) :=
  match r with
  | ':' :: r1 =>
    (match takeDigits 2 r1 with
     | none => none
     | some (ss, r2) =>
       if 59 < ss then none
       else
         match r2 with
         | '.' :: r3 =>
           if (r3.takeWhile Char.isDigit).isEmpty then none
           else some (ss, r3.dropWhile Char.isDigit)
         | _ => some (ss, r2))
  | _ => some (0, r)

/-- Optional `±HH:MM` offset closing an ISO string (nothing may follow). -/
def isoParseOffset (y mo d hh mi ss : Nat) (r : List Char) : Option PyDateTime :=
  match r with
  | [] => some ⟨y, mo, d, hh, mi, ss, none⟩
  | sign :: r1 =>
    if sign = '+' ∨ sign = '-' then
      match takeDigits 2 r1 with
      | none => none
      | some (oh, r2) =>
        match r2 with
        | ':' :: r3 =>
          (match takeDigits 2 r3 with
           | none => none
           | some (om, r4) =>
             if r4 = [] ∧ oh ≤ 23 ∧ om ≤ 59 then
               some ⟨y, mo, d, hh, mi, ss,
                 some ((if sign = '-' then -1 else 1) * (oh * 60 + om : Nat))⟩
             else none)
        | _ => none
    else none

def isoParseTime (y mo d : Nat) (r : List Char) : Option PyDateTime :=
  match takeDigits 2 r with
  | none => none
  | some (hh, r1) =>
    match r1 with
    | ':' :: r2 =>
      (match takeDigits 2 r2 with
       | none => none
       | some (mi, r3) =>
         if ¬(hh ≤ 23 ∧ mi ≤ 59) then none
         else
           match parseSecFrac r3 with
           | none => none
           | some (ss, r4) => isoParseOffset y mo d hh mi ss r4)
    | _ => none

/-- `datetime.fromisoformat` on the `YYYY-MM-DD[THH:MM[:SS[.f]]][±HH:MM]`
subset the program feeds it (after its own `Z` replacement). -/
def isoParse (s : List Char) : Option PyDateTime :=
  match takeDigits 4 s with
  | none => none
  | some (y, r1) =>
    match r1 with
    | '-' :: r2 =>
      (match takeDigits 2 r2 with
       | none => none
       | some (mo, r3) =>
         match r3 with
         | '-' :: r4 =>
           (match takeDigits 2 r4 with
            | none => none
            | some (d, r5) =>
              if ¬(1 ≤ mo ∧ mo ≤ 12 ∧ 1 ≤ d ∧ d ≤ daysInMonth y mo) then none
              else
                match r5 with
                | [] => some ⟨y, mo, d, 0, 0, 0, none⟩
                | t :: r6 =>
                  if t = 'T' ∨ t = ' ' then isoParseTime y mo d r6 else none)
         | _ => none)
    | _ => none

/-! ### `common/statuspage.py`: components, incidents, result record

The JSON payload is embedded structurally: a component dict becomes
`SPComponent` (a missing `status`/`name` string is modelled as `""`, which is
also Python-falsy), an incident dict becomes `SPIncident` with `Option`
fields for `updated_at`/`created_at`. -/

structure SPComponent where
  cid : List Char
  cname : List Char
  cstatus : List Char
  cgroup : Bool
  children : List (List Char)
deriving DecidableEq, Repr

structure SPUpdate where
  updatedAt : Option (List Char)
  createdAt : Option (List Char)
deriving DecidableEq, Repr

structure SPIncident where
  iname : List Char
  istatus : List Char
  incidentUpdates : List SPUpdate
  updatedAt : Option (List Char)
  createdAt : Option (List Char)
deriving DecidableEq, Repr

structure SPSummary where
  components : List SPComponent
  incidents : List SPIncident
deriving DecidableEq, Repr

/-- `str.title()` (ASCII letters: a letter not preceded by a letter is
uppercased, every other letter lowercased). -/
def titleCaseGo : Bool → List Char → List Char
  | _, [] => []
  | prev, c :: rest =>
    if c.isAlpha then (if prev then c.toLower else c.toUpper) :: titleCaseGo true rest
    else c :: titleCaseGo false rest

def titleCase (s : List Char) : List Char := titleCaseGo false s

/-- `st.replace("_", " ")`. -/
def replUnd (s : List Char) : List Char := s.map (fun c => if c = '_' then ' ' else c)

/-- `by_id[i]` where `by_id = {c.get("id"): c for ...}` (a dict comprehension
keeps the last entry for a repeated id). -/
def lookupById (comps : List SPComponent) (i : List Char) : Option SPComponent :=
  comps.reverse.find? (fun c => decide (c.cid = i))

/-- `parse_components` (`common/statuspage.py`, lines 31-73); the per-group
children lists are computed directly from each group's `components` ids. -/
def parseComponents (comps : List SPComponent) : List (List Char) :=
  let groups := comps.filter (fun c => c.cgroup)
  let lines :=
    if groups.isEmpty then
      comps.filterMap (fun c =>
        let st := if c.cstatus.isEmpty then S "unknown" else c.cstatus
        if ¬c.cgroup ∧ st ≠ S "operational" then
          some (c.cname ++ [' '] ++ titleCase (replUnd st))
        else none)
    else
      groups.flatMap (fun g =>
        let childs := g.children.filterMap (fun i => lookupById comps i)
        if childs.isEmpty then
          let st := if g.cstatus.isEmpty then S "unknown" else g.cstatus
          if st ≠ S "operational" then [g.cname ++ [' '] ++ titleCase (replUnd st)]
          else []
        else
          let nonOk := childs.filter (fun c => decide (c.cstatus ≠ S "operational"))
          if nonOk.isEmpty then [g.cname ++ S " Operational"]
          else g.cname :: nonOk.map (fun c =>
            S "- " ++ c.cname ++ [' '] ++
              titleCase (replUnd (if c.cstatus.isEmpty then S "unknown" else c.cstatus))))
  dedupeKeepOrder lines

/-- Python string `<` (lexicographic on code points). -/
def strLtB : List Char → List Char → Bool
  | [], [] => false
  | [], _ :: _ => true
  | _ :: _, [] => false
  | a :: xs, b :: ys => if a < b then true else if b < a then false else strLtB xs ys

/-- `max(items, key=...)` over strings (first maximal element wins, as in
Python). -/
def pyMaxBy {α : Type} (key : α → List Char) : List α → Option α
  | [] => none
  | x :: xs => some (xs.foldl (fun best u => if strLtB (key best) (key u) then u else best) x)

/-- `u.get("updated_at") or u.get("created_at") or ""`. -/
def updKey (u : SPUpdate) : List Char :=
  match u.updatedAt with
  | some s => if s.isEmpty then (match u.createdAt with | some t => t | none => []) else s
  | none => match u.createdAt with | some t => t | none => []

/-- The loop body of `parse_incidents_today` for one incident:
`some line` when the incident contributes a today-line. -/
def incidentLineOf (today : Nat × Nat × Nat) (inc : SPIncident) : Option (List Char) :=
  let name := if inc.iname.isEmpty then S "Incident" else inc.iname
  let status := titleCase inc.istatus
  let tsOpt : Option (List Char) :=
    match inc.incidentUpdates with
    | [] =>
      (match inc.updatedAt with
       | some s => if s.isEmpty then inc.createdAt else some s
       | none => inc.createdAt)
    | u :: us =>
      match pyMaxBy updKey (u :: us) with
      | some last => last.updatedAt
      | none => none
  match tsOpt with
  | none => none
  | some ts =>
    if ts.isEmpty then none
    else
      match isoParse (replaceZ ts) with
      | none => none
      | some dt =>
        let dtu := astimezoneUTC dt
        if dateTriple dtu = today then
          some (name ++ S " — " ++ status ++ S " (last update "
            ++ strftimeYMDHMUTC dtu ++ [')'])
        else none

/-- `parse_incidents_today` (`common/statuspage.py`, lines 75-100); `today`
is `datetime.now(timezone.utc).date()` as a `(y, m, d)` triple. -/
def parseIncidentsToday (today : Nat × Nat × Nat) (items : List SPIncident) :
    List (List Char) :=
  if items.isEmpty then [S "No incidents reported today"]
  else
    let todayLines := items.filterMap (incidentLineOf today)
    if todayLines.isEmpty then [S "No incidents reported today"] else todayLines

/-- The normalized vendor record the collectors return (`overall_ok` is
`none` on the statuspage fetch-error path). -/
structure CollectResult where
  cname : List Char
  timestampUtc : List Char
  componentLines : List (List Char)
  incidentsLines : List (List Char)
  overallOk : Option Bool
deriving DecidableEq, Repr

/-- `build_statuspage_result` (`common/statuspage.py`, lines 102-114), success
path, with the fetched summary, today's date and the timestamp string as
inputs. -/
def buildStatuspageResult (name : List Char) (summary : SPSummary)
    (today : Nat × Nat × Nat) (nowStr : List Char) : CollectResult :=
  let comp := parseComponents summary.components
  let inc := parseIncidentsToday today summary.incidents
  let ok :=
    if comp.isEmpty then decide (inc = [S "No incidents reported today"])
    else decide (inc = [S "No incidents reported today"]) &&
      comp.all (fun x => containsSub (S "Operational") x)
  ⟨name, nowStr, comp, inc, some ok⟩

/-! ### `vendors/qualys.py`: digest formatting and date-range parsing -/

/-- `_collapse_ws` (`re.sub(r"\s+", " ", s).strip()`). -/
def collapseWsStrip (s : List Char) : List Char := pyStrip (collapseWS s)

/-- An extracted incident item (`title`/`status` model missing dict entries
as `""`, which is also Python-falsy). -/
structure QItem where
  qtitle : List Char
  qstatus : List Char
  qurl : Option (List Char)
  startedAt : Option PyDateTime
  endedAt : Option PyDateTime
deriving DecidableEq, Repr

/-- `_fmt_item_lines` (`vendors/qualys.py`, lines 265-275). -/
def fmtItemLines (idx : Nat) (inc : QItem) : List (List Char) :=
  let t := if inc.qtitle.isEmpty then S "Sin título" else inc.qtitle
  let st := if inc.qstatus.isEmpty then S "Update" else inc.qstatus
  let sS := match inc.startedAt with | some d => strftimeYMDHMUTC d | none => S "N/D"
  let eS := match inc.endedAt with | some d => strftimeYMDHMUTC d | none => S "N/D"
  let titleLine :=
    match inc.qurl with
    | none => natStr idx ++ S ". " ++ t
    | some u =>
      if u.isEmpty then natStr idx ++ S ". " ++ t
      else natStr idx ++ S ". " ++ t ++ S " (" ++ u ++ [')']
  [titleLine, S "   Estado: " ++ st ++ S " · Inicio: " ++ sS ++ S " · Fin: " ++ eS]

/-- `_format_incidents_lines_for_digest` (`vendors/qualys.py`, lines 293-300). -/
def formatIncidentsLinesForDigest (items : List QItem) : List (List Char) :=
  if items.isEmpty then
    [S "Histórico (meses visibles en la página)",
     S "- No hay incidencias no programadas en los meses mostrados."]
  else
    S "Histórico (meses visibles en la página)" ::
      (items.enum.flatMap (fun p => fmtItemLines (p.1 + 1) p.2))

/-- `collect` (`vendors/qualys.py`, lines 302-334), as a function of the
extracted items and the timestamp string. -/
def qualysCollect (items : List QItem) (nowStr : List Char) : CollectResult :=
  ⟨S "Qualys", nowStr, [], formatIncidentsLinesForDigest items,
   some (items.length == 0)⟩

/-- The twelve `%b` month abbreviations with their numbers. -/
def monthAbbrevs : List (List Char × Nat) :=
  [(S "jan", 1), (S "feb", 2), (S "mar", 3), (S "apr", 4), (S "may", 5),
   (S "jun", 6), (S "jul", 7), (S "aug", 8), (S "sep", 9), (S "oct", 10),
   (S "nov", 11), (S "dec", 12)]

/-- Case-insensitive month abbreviation at the head: its number, the matched
text and the remaining input. -/
def monthNumOfPrefix (s : List Char) : Option (Nat × List Char × List Char) :=
  monthAbbrevs.foldr
    (fun p acc =>
      match ciPrefix p.1 s with
      | some r => some (p.2, s.take 3, r)
      | none => acc)
    none

/-- `\s+`: at least one whitespace character, consumed greedily. -/
def wsPlus (s : List Char) : Option (List Char) :=
  if (s.takeWhile isWS).isEmpty then none else some (s.dropWhile isWS)

/-- Rest after `\d{1,2}:\d{2}` (greedy, no backtracking into the hour). -/
def parseHMr (s : List Char) : Option (List Char) :=
  let hs := (s.takeWhile Char.isDigit).take 2
  if hs.isEmpty then none
  else
    match s.drop hs.length with
    | ':' :: r =>
      if ((r.takeWhile Char.isDigit).take 2).length = 2 then some (r.drop 2) else none
    | _ => none

/-- `\b` holds after a word character iff the next character is not one. -/
def bAfter (r : List Char) : Bool :=
  match r.head? with
  | some c => !isWordChar c
  | none => true

/-- Optional `({MONTHS_SHORT})\s+\d{1,2}\s*,\s*` inside `DATE_RANGE_RE`. -/
def tryMonthDayComma (s : List Char) : Option (List Char) :=
  match monthNumOfPrefix s with
  | none => none
  | some (_, _, r) =>
    if (r.takeWhile isWS).isEmpty then none
    else
      let r1 := r.dropWhile isWS
      let ds := (r1.takeWhile Char.isDigit).take 2
      if ds.isEmpty then none
      else
        match (r1.drop ds.length).dropWhile isWS with
        | ',' :: r2 => some (r2.dropWhile isWS)
        | _ => none

/-- `(UTC|GMT|[A-Z]{2,4})\b` under `re.I`: the longest run of 2-4 ASCII
letters followed by a word boundary. -/
def tzTryLen (s : List Char) : Nat → Option (List Char × List Char)
  | 0 => none
  | 1 => none
  | k + 1 =>
    if (s.take (k + 1)).length = k + 1 ∧ (s.take (k + 1)).all Char.isAlpha ∧
        bAfter (s.drop (k + 1))
    then some (s.take (k + 1), s.drop (k + 1))
    else tzTryLen s k

def tzMatch (s : List Char) : Option (List Char × List Char) := tzTryLen s 4

/-- `DATE_RANGE_RE` attempted at the current position (a word boundary):
returns `(group(0), group(3))`.  Greedy, without backtracking across
sub-patterns — faithful on the page's `Mon D, HH:MM - [Mon D, ]HH:MM TZ`
shapes. -/
def tryDateRange (s : List Char) : Option (List Char × List Char) :=
  match monthNumOfPrefix s with
  | none => none
  | some (_, _, r0) =>
    match wsPlus r0 with
    | none => none
    | some r1 =>
      let d1 := (r1.takeWhile Char.isDigit).take 2
      if d1.isEmpty then none
      else
        match (r1.drop d1.length).dropWhile isWS with
        | ',' :: r3 =>
          (match parseHMr (r3.dropWhile isWS) with
           | none => none
           | some r5 =>
             match r5.dropWhile isWS with
             | dash :: r7 =>
               if dash = '-' ∨ dash = '–' then
                 let r8 := r7.dropWhile isWS
                 let r9 := match tryMonthDayComma r8 with
                           | some r => r
                           | none => r8
                 match parseHMr r9 with
                 | none => none
                 | some r10 =>
                   match tzMatch (r10.dropWhile isWS) with
                   | none => none
                   | some (tzTxt, r12) =>
                     some (s.take (s.length - r12.length), tzTxt)
               else none
             | [] => none)
        | _ => none

/-- `DATE_RANGE_RE.search`: first match position, tracking `\b`. -/
def dateRangeSearchGo : Bool → List Char → Option (List Char × List Char)
  | _, [] => none
  | prevW, c :: rest =>
    match (if prevW then none else tryDateRange (c :: rest)) with
    | some r => some r
    | none => dateRangeSearchGo (isWordChar c) rest

def dateRangeSearch (s : List Char) : Option (List Char × List Char) :=
  dateRangeSearchGo false s

/-- Raw split on `-` / `–` characters. -/
def splitOnDash : List Char → List (List Char)
  | [] => [[]]
  | c :: rest =>
    if c = '-' ∨ c = '–' then [] :: splitOnDash rest
    else
      match splitOnDash rest with
      | p :: ps => (c :: p) :: ps
      | [] => [[c]]

/-- Pieces after the first: each dash absorbed its adjacent whitespace. -/
def splitDashRest : List (List Char) → List (List Char)
  | [] => []
  | [q] => [pyLstrip q]
  | q :: q2 :: qs => pyRstrip (pyLstrip q) :: splitDashRest (q2 :: qs)

/-- `re.split(r"\s*[-–]\s*", s)`: split on dashes, the surrounding `\s*`
belonging to the delimiter. -/
def splitDash (s : List Char) : List (List Char) :=
  match splitOnDash s with
  | [] => [[]]
  | [p] => [p]
  | p :: q :: qs => pyRstrip p :: splitDashRest (q :: qs)

/-- `s.rstrip(",")`. -/
def pyRstripComma (s : List Char) : List Char :=
  (s.reverse.dropWhile (fun c => decide (c = ','))).reverse

/-- `re.search(rf"({MONTHS_SHORT})\s+\d{{1,2}}", right, re.I)` as a Boolean. -/
def hasMonthDay : List Char → Bool
  | [] => false
  | c :: rest =>
    (match monthNumOfPrefix (c :: rest) with
     | some (_, _, r) =>
       (match r with
        | w :: r2 => isWS w && (match (r2.dropWhile isWS).head? with
                                | some d => d.isDigit
                                | none => false)
        | [] => false)
     | none => false) || hasMonthDay rest

/-- `re.match(rf"({MONTHS_SHORT})\s+\d{{1,2}}", left, re.I)`, returning
`group(0)`. -/
def matchMonthDayPrefix (s : List Char) : Option (List Char) :=
  match monthNumOfPrefix s with
  | none => none
  | some (_, mtxt, r) =>
    let ws := r.takeWhile isWS
    if ws.isEmpty then none
    else
      let r2 := r.dropWhile isWS
      let ds := (r2.takeWhile Char.isDigit).take 2
      if ds.isEmpty then none else some (mtxt ++ ws ++ ds)

/-- Matcher for `re.sub(r"\s*,\s*", ", ", s)`. -/
def commaTry (s : List Char) : Option (List Char × List Char) :=
  match s.dropWhile isWS with
  | ',' :: r => some (S ", ", r.dropWhile isWS)
  | _ => none

def commaNorm (s : List Char) : List Char := subScan commaTry s

/-- `_build_dt_strings` (`vendors/qualys.py`, lines 122-132). -/
def buildDtStrings (part : List Char) (year : Nat) : Option (List Char) :=
  let p := commaNorm (collapseWsStrip part)
  match monthNumOfPrefix p with
  | none => none
  | some (_, mtxt, r) =>
    if (r.takeWhile isWS).isEmpty then none
    else
      let r1 := r.dropWhile isWS
      let ds := (r1.takeWhile Char.isDigit).take 2
      if ds.isEmpty then none
      else
        match r1.drop ds.length with
        | ',' :: r2 =>
          let r3 := r2.dropWhile isWS
          let hs := (r3.takeWhile Char.isDigit).take 2
          if hs.isEmpty then none
          else
            (match r3.drop hs.length with
             | ':' :: r4 =>
               let ms2 := (r4.takeWhile Char.isDigit).take 2
               if ms2.length = 2 then
                 some (mtxt ++ [' '] ++ ds ++ S ", " ++ natStr year ++ [' ']
                   ++ hs ++ [':'] ++ ms2)
               else none
             | _ => none)
        | _ => none

/-- `TZ_OFFSETS_MIN` (`vendors/qualys.py`, lines 46-54). -/
def TZ_OFFSETS_MIN : List (List Char × Int) :=
  [(S "UTC", 0), (S "GMT", 0),
   (S "PDT", -420), (S "PST", -480),
   (S "EDT", -240), (S "EST", -300),
   (S "CDT", -300), (S "CST", -360),
   (S "MDT", -360), (S "MST", -420),
   (S "CEST", 120), (S "CET", 60),
   (S "BST", 60)]

def pyUpper (s : List Char) : List Char := s.map Char.toUpper

def tzLookup (tz : List Char) : Option Int :=
  match TZ_OFFSETS_MIN.find? (fun p => decide (p.1 = pyUpper tz)) with
  | some p => some p.2
  | none => none

/-- `datetime.strptime(s, "%b %d, %Y %H:%M")` on the exact strings
`_build_dt_strings` produces, with `strptime`'s range validation. -/
def strptimeBdY (s : List Char) : Option (Nat × Nat × Nat × Nat × Nat) :=
  match monthNumOfPrefix s with
  | none => none
  | some (mnum, _, r) =>
    match r with
    | ' ' :: r1 =>
      let ds := (r1.takeWhile Char.isDigit).take 2
      if ds.isEmpty then none
      else
        (match r1.drop ds.length with
         | ',' :: ' ' :: r2 =>
           let ys := (r2.takeWhile Char.isDigit).take 4
           if ys.isEmpty then none
           else
             (match r2.drop ys.length with
              | ' ' :: r3 =>
                let hs := (r3.takeWhile Char.isDigit).take 2
                if hs.isEmpty then none
                else
                  (match r3.drop hs.length with
                   | ':' :: r4 =>
                     let ms2 := (r4.takeWhile Char.isDigit).take 2
                     if ms2.length = 2 ∧ r4.drop 2 = [] ∧ 1 ≤ natOfDigits ds ∧
                         natOfDigits ds ≤ daysInMonth (natOfDigits ys) mnum ∧
                         natOfDigits hs ≤ 23 ∧ natOfDigits ms2 ≤ 59 then
                       some (mnum, natOfDigits ds, natOfDigits ys,
                         natOfDigits hs, natOfDigits ms2)
                     else none
                   | _ => none)
              | _ => none)
         | _ => none)
    | _ => none

/-- `_parse_with_tz_abbrev` (`vendors/qualys.py`, lines 110-120). -/
def parseWithTzAbbrev (sNoTz : List Char) (tzabbr : List Char) : Option PyDateTime :=
  match strptimeBdY sNoTz with
  | none => none
  | some (mnum, day, yr, hh, mi) =>
    match tzLookup tzabbr with
    | none => none
    | some off => some (astimezoneUTC ⟨yr, mnum, day, hh, mi, 0, some off⟩)

/-- `_parse_date_range` (`vendors/qualys.py`, lines 134-159); `year` is the
year context (`_find_year_context` over the DOM, out of scope here). -/
def parseDateRange (dateText : List Char) (year : Nat) :
    Option PyDateTime × Option PyDateTime :=
  let t := collapseWsStrip dateText
  match dateRangeSearch t with
  | none => (none, none)
  | some (g0, tz) =>
    let parts := splitDash g0
    let left := pyRstripComma (pyStrip (parts.headD []))
    let right := pyStrip (parts.tail.headD [])
    let right2 :=
      if hasMonthDay right then right
      else
        match matchMonthDayPrefix left with
        | some md => md ++ S ", " ++ right
        | none => right
    (match buildDtStrings left year with
     | some ls => parseWithTzAbbrev ls tz
     | none => none,
     match buildDtStrings right2 year with
     | some rs => parseWithTzAbbrev rs tz
     | none => none)

/-! ### `common/digest_export.py`: classifier regexes and the capture counts

The four module-level regexes (`NO_INCIDENTS_RE`, `ACTIVE_TOKENS_RE`,
`RESOLVED_RE`, `MAINT_RE`) are embedded as Boolean `search` functions; all
are `re.IGNORECASE`, matched here with `ciPrefix`. -/

/-- Search with a leading `\b`: try `atPos` at every position whose previous
character is not a word character. -/
def searchWB (atPos : List Char → Bool) : Bool → List Char → Bool
  | _, [] => false
  | prevW, c :: rest =>
    ((!prevW) && atPos (c :: rest)) || searchWB atPos (isWordChar c) rest

/-- Search without a boundary requirement. -/
def searchAny (atPos : List Char → Bool) : List Char → Bool
  | [] => false
  | c :: rest => atPos (c :: rest) || searchAny atPos rest

/-- One literal word then `\b`. -/
def wordB (w : List Char) (t : List Char) : Bool :=
  match ciPrefix w t with
  | some r => bAfter r
  | none => false

/-- Branch `\bno\s+(?:current\s+)?(?:identified\s+)?incidents`
`(?:\s+reported\s+(?:today)?)?\b` of `NO_INCIDENTS_RE`. -/
def noInc1 (s : List Char) : Bool :=
  match ciPrefix (S "no") s with
  | none => false
  | some r0 =>
    match wsPlus r0 with
    | none => false
    | some r1 =>
      let step3 : List Char → Bool := fun r2 =>
        match ciPrefix (S "incidents") r2 with
        | none => false
        | some r3 =>
          (match wsPlus r3 with
           | some r4 =>
             (match ciPrefix (S "reported") r4 with
              | some r5 =>
                (match wsPlus r5 with
                 | some r6 =>
                   (match ciPrefix (S "today") r6 with
                    | some r7 => bAfter r7
                    | none => false) ||
                   -- empty `(?:today)?`: `\b` after `\s+` needs a word char next
                   (match r6.head? with
                    | some c => isWordChar c
                    | none => false)
                 | none => false)
              | none => false)
           | none => false) || bAfter r3
      let step2 : List Char → Bool := fun r =>
        (match ciPrefix (S "identified") r with
         | some ri =>
           (match wsPlus ri with
            | some ri2 => step3 ri2
            | none => false)
         | none => false) || step3 r
      (match ciPrefix (S "current") r1 with
       | some rc =>
         (match wsPlus rc with
          | some rc2 => step2 rc2
          | none => false)
       | none => false) || step2 r1

/-- Branch `\bincidents\s+today\s*[—\-:]\s*0\b`. -/
def noInc2 (s : List Char) : Bool :=
  match ciPrefix (S "incidents") s with
  | none => false
  | some r0 =>
    match wsPlus r0 with
    | none => false
    | some r1 =>
      match ciPrefix (S "today") r1 with
      | none => false
      | some r2 =>
        match r2.dropWhile isWS with
        | d :: r4 =>
          if d = '—' ∨ d = '-' ∨ d = ':' then
            match r4.dropWhile isWS with
            | '0' :: r6 => bAfter r6
            | _ => false
          else false
        | [] => false

/-- Branch `\ball\s+systems\s+operational\b`. -/
def noInc3 (s : List Char) : Bool :=
  match ciPrefix (S "all") s with
  | none => false
  | some r0 =>
    match wsPlus r0 with
    | none => false
    | some r1 =>
      match ciPrefix (S "systems") r1 with
      | none => false
      | some r2 =>
        match wsPlus r2 with
        | none => false
        | some r3 => wordB (S "operational") r3

/-- Branch `\bno\s+hay\s+incidentes(?:\s+activos)?(?:\s+reportados)?\b`. -/
def noInc4 (s : List Char) : Bool :=
  match ciPrefix (S "no") s with
  | none => false
  | some r0 =>
    match wsPlus r0 with
    | none => false
    | some r1 =>
      match ciPrefix (S "hay") r1 with
      | none => false
      | some r2 =>
        match wsPlus r2 with
        | none => false
        | some r3 =>
          match ciPrefix (S "incidentes") r3 with
          | none => false
          | some r4 =>
            let afterAct : List Char → Bool := fun r =>
              (match wsPlus r with
               | some rw =>
                 (match ciPrefix (S "reportados") rw with
                  | some re2 => bAfter re2
                  | none => false)
               | none => false) || bAfter r
            (match wsPlus r4 with
             | some rw =>
               (match ciPrefix (S "activos") rw with
                | some ra => afterAct ra
                | none => false)
             | none => false) || afterAct r4

/-- Branch `\bno\s+se\s+han\s+registrado\s+incidentes\b`. -/
def noInc5 (s : List Char) : Bool :=
  match ciPrefix (S "no") s with
  | none => false
  | some r0 =>
    match wsPlus r0 with
    | none => false
    | some r1 =>
      match ciPrefix (S "se") r1 with
      | none => false
      | some r2 =>
        match wsPlus r2 with
        | none => false
        | some r3 =>
          match ciPrefix (S "han") r3 with
          | none => false
          | some r4 =>
            match wsPlus r4 with
            | none => false
            | some r5 =>
              match ciPrefix (S "registrado") r5 with
              | none => false
              | some r6 =>
                match wsPlus r6 with
                | none => false
                | some r7 => wordB (S "incidentes") r7

/-- `NO_INCIDENTS_RE.search` (`common/digest_export.py`, lines 64-71). -/
def noIncidentsSearch (s : List Char) : Bool :=
  searchWB (fun t => noInc1 t || noInc2 t || noInc3 t || noInc4 t || noInc5 t) false s

/-- The alternation of `ACTIVE_TOKENS_RE` at one position. -/
def activeAlt (t : List Char) : Bool :=
  wordB (S "investigating") t || wordB (S "identified") t ||
  wordB (S "degraded") t ||
  (match ciPrefix (S "partial") t with
   | some r =>
     (match wsPlus r with
      | some r2 => wordB (S "outage") r2
      | none => false)
   | none => false) ||
  (match ciPrefix (S "service") t with
   | some r =>
     (match wsPlus r with
      | some r2 => wordB (S "disruption") r2
      | none => false)
   | none => false) ||
  wordB (S "outage") t ||
  (match ciPrefix (S "major") t with
   | some r =>
     (match wsPlus r with
      | some r2 => wordB (S "incident") r2
      | none => false)
   | none => false)

/-- `ACTIVE_TOKENS_RE.search` (`common/digest_export.py`, lines 73-76). -/
def activeSearch (s : List Char) : Bool := searchWB activeAlt false s

/-- `RESOLVED_RE.search` (`\bresolved\b`). -/
def resolvedSearch (s : List Char) : Bool :=
  searchWB (fun t => wordB (S "resolved") t) false s

/-- `MAINT_RE.search`: the top-level alternation is
`\bmaint(en(ance|imiento))?` or `scheduled\s+maintenance\b` (the `\b`
anchors bind to the outer alternatives). -/
def maintSearch (s : List Char) : Bool :=
  searchWB (fun t => (ciPrefix (S "maint") t).isSome) false s ||
  searchAny (fun t =>
    match ciPrefix (S "scheduled") t with
    | some r =>
      (match wsPlus r with
       | some r2 => wordB (S "maintenance") r2
       | none => false)
    | none => false) s

/-- The counting core of `_build_from_capture` (`common/digest_export.py`,
lines 251-282) on the cleaned vendor block: per-line token counts and the
no-incident zero-override; returns `(active, resolved_today,
maintenance_today)`. -/
def buildCountsFromBlock (vendorBlock : List Char) : Nat × Nat × Nat :=
  let lines := (pySplitlines vendorBlock).filterMap (fun ln =>
    let t := pyStrip ln
    if t.isEmpty then none else some t)
  let active := lines.countP (fun ln => activeSearch (pyLower ln))
  let resolved := lines.countP (fun ln => resolvedSearch (pyLower ln))
  let maint := lines.countP (fun ln => maintSearch (pyLower ln))
  if noIncidentsSearch vendorBlock && !activeSearch vendorBlock then (0, 0, maint)
  else (active, resolved, maint)

/-! ### `vendors/trendmicro.py`: embedded-JSON extraction and lenient repair

`json.loads` is embedded as a fuel-bounded strict parser into `JVal`
(floating-point literals, outside this data's shape, are not modelled). -/

def jsonWs (c : Char) : Bool := c = ' ' || c = '\t' || c = '\n' || c = '\r'

/-- `[0-9a-fA-F]`. -/
def isHexC (c : Char) : Bool :=
  c.isDigit || ('a' ≤ c.toLower && c.toLower ≤ 'f')

/-- Hexadecimal digits to a number. -/
def natOfHex (ds : List Char) : Nat :=
  ds.foldl (fun a c =>
    a * 16 + (if c.isDigit then c.toNat - '0'.toNat else c.toLower.toNat - 'a'.toNat + 10)) 0

/-- JSON string body after the opening quote (standard escapes, `\uXXXX`
below the surrogate range; unescaped control characters are rejected, as by
strict `json.loads`). -/
def jsonString : List Char → Option (List Char × List Char)
  | [] => none
  | '"' :: r => some ([], r)
  | '\\' :: e :: r =>
    (match (match e with
            | '"' => some '"'
            | '\\' => some '\\'
            | '/' => some '/'
            | 'b' => some (Char.ofNat 8)
            | 'f' => some (Char.ofNat 12)
            | 'n' => some '\n'
            | 'r' => some '\r'
            | 't' => some '\t'
            | _ => none) with
     | some c =>
       (match jsonString r with
        | some (t, rest) => some (c :: t, rest)
        | none => none)
     | none =>
       if e = 'u' then
         match r with
         | a :: b :: c2 :: d :: r2 =>
           if isHexC a && isHexC b && isHexC c2 && isHexC d then
             let n := natOfHex [a, b, c2, d]
             if h : n.isValidChar then
               match jsonString r2 with
               | some (t, rest) => some (Char.ofNatAux n h :: t, rest)
               | none => none
             else none
           else none
         | _ => none
       else none)
  | c :: r =>
    if c.toNat < 32 then none
    else
      match jsonString r with
      | some (t, rest) => some (c :: t, rest)
      | none => none

/-- JSON integer literal (strict grammar; a following `.`/`e` is rejected
rather than modelled as a float). -/
def jsonNumber (s : List Char) : Option (JVal × List Char) :=
  let p := match s with
           | '-' :: r => (true, r)
           | _ => (false, s)
  match p.2 with
  | '0' :: r2 =>
    if (match r2.head? with
        | some c => c.isDigit || c == '.' || c == 'e' || c == 'E'
        | none => false) then none
    else some (.jnum 0, r2)
  | c :: _ =>
    if c.isDigit then
      let ds := p.2.takeWhile Char.isDigit
      let r2 := p.2.drop ds.length
      if (match r2.head? with
          | some x => x == '.' || x == 'e' || x == 'E'
          | none => false) then none
      else some (.jnum ((if p.1 then -1 else 1) * (natOfDigits ds : Int)), r2)
    else none
  | [] => none

mutual

/-- One JSON value (leading whitespace allowed), with the rest. -/
def jsonValue : Nat → List Char → Option (JVal × List Char)
  | 0, _ => none
  | fuel + 1, s =>
    match s.dropWhile jsonWs with
    | 't' :: r => if (S "rue").isPrefixOf r then some (.jbool true, r.drop 3) else none
    | 'f' :: r => if (S "alse").isPrefixOf r then some (.jbool false, r.drop 4) else none
    | 'n' :: r => if (S "ull").isPrefixOf r then some (.jnull, r.drop 3) else none
    | '"' :: r =>
      (match jsonString r with
       | some (st, rest) => some (.jstr st, rest)
       | none => none)
    | '[' :: r =>
      (match r.dropWhile jsonWs with
       | ']' :: r2 => some (.jarr [], r2)
       | r2 => jsonArrayElems fuel r2 [])
    | '\x7b' :: r =>
      (match r.dropWhile jsonWs with
       | '\x7d' :: r2 => some (.jobj [], r2)
       | r2 => jsonObjMembers fuel r2 [])
    | r => jsonNumber r

def jsonArrayElems : Nat → List Char → List JVal → Option (JVal × List Char)
  | 0, _, _ => none
  | fuel + 1, s, acc =>
    match jsonValue fuel s with
    | none => none
    | some (v, r) =>
      match r.dropWhile jsonWs with
      | ',' :: r2 => jsonArrayElems fuel r2 (v :: acc)
      | ']' :: r2 => some (.jarr (v :: acc).reverse, r2)
      | _ => none

def jsonObjMembers : Nat → List Char → List (List Char × JVal) →
    Option (JVal × List Char)
  | 0, _, _ => none
  | fuel + 1, s, acc =>
    match s.dropWhile jsonWs with
    | '"' :: r =>
      (match jsonString r with
       | none => none
       | some (k, r1) =>
         match r1.dropWhile jsonWs with
         | ':' :: r2 =>
           (match jsonValue fuel r2 with
            | none => none
            | some (v, r3) =>
              match r3.dropWhile jsonWs with
              | ',' :: r4 => jsonObjMembers fuel r4 ((k, v) :: acc)
              | '\x7d' :: r4 => some (.jobj ((k, v) :: acc).reverse, r4)
              | _ => none)
         | _ => none)
    | _ => none

end

/-- `json.loads` on the text of one array (strict). -/
def jsonParse (s : List Char) : Option JVal :=
  match jsonValue (2 * s.length + 2) s with
  | some (v, rest) => if rest.dropWhile jsonWs = [] then some v else none
  | none => none

/-- Matcher for `re.sub(r",\s*}", "}", s)`. -/
def commaBraceTry (s : List Char) : Option (List Char × List Char) :=
  match s with
  | ',' :: rest =>
    (match rest.dropWhile isWS with
     | '\x7d' :: r => some (['\x7d'], r)
     | _ => none)
  | _ => none

/-- Matcher for `re.sub(r",\s*]", "]", s)`. -/
def commaBracketTry (s : List Char) : Option (List Char × List Char) :=
  match s with
  | ',' :: rest =>
    (match rest.dropWhile isWS with
     | ']' :: r => some ([']'], r)
     | _ => none)
  | _ => none

/-- The two repair substitutions of `parse_ssp_records_for_product`
(`vendors/trendmicro.py`, lines 142-143). -/
def repairJson (s : List Char) : List Char :=
  subScan commaBracketTry (subScan commaBraceTry s)

/-- Strict parse, then the lenient-repair retry (lines 136-146); `none`
means the array is skipped. -/
def parseArrayLenient (arrTxt : List Char) : Option JVal :=
  match jsonParse arrTxt with
  | some v => some v
  | none => jsonParse (repairJson arrTxt)

/-- Bracket-depth scan from the opening `[`, inclusive
(`_extract_json_array_from_key`, lines 102-114). -/
def bracketScanGo : Nat → List Char → Option (List Char)
  | _, [] => none
  | depth, c :: rest =>
    if c = '[' then
      match bracketScanGo (depth + 1) rest with
      | some t => some (c :: t)
      | none => none
    else if c = ']' then
      if depth = 1 then some [c]
      else
        match bracketScanGo (depth - 1) rest with
        | some t => some (c :: t)
        | none => none
    else
      match bracketScanGo depth rest with
      | some t => some (c :: t)
      | none => none

/-- `key\s*[:=]\s*(\[)` attempted at the current position: the suffix
starting at the `[`. -/
def keyBracketAt (key : List Char) (s : List Char) : Option (List Char) :=
  if key.isPrefixOf s then
    match (s.drop key.length).dropWhile isWS with
    | c :: r2 =>
      if c = ':' ∨ c = '=' then
        match r2.dropWhile isWS with
        | '[' :: r3 => some ('[' :: r3)
        | _ => none
      else none
    | [] => none
  else none

/-- First position where `f` succeeds. -/
def searchPos {α : Type} (f : List Char → Option α) : List Char → Option α
  | [] => none
  | c :: rest =>
    match f (c :: rest) with
    | some x => some x
    | none => searchPos f rest

/-- `_extract_json_array_from_key` (`vendors/trendmicro.py`, lines 98-114). -/
def extractJsonArrayFromKey (script : List Char) (key : List Char) :
    Option (List Char) :=
  match searchPos (keyBracketAt key) script with
  | some suf => bracketScanGo 0 suf
  | none => none

/-- `STATUS_MAP` (`vendors/trendmicro.py`, lines 53-60). -/
def STATUS_MAP : List (Int × List Char) :=
  [(770060000, S "Resolved"), (770060001, S "Monitoring"),
   (770060002, S "Investigating"), (770060003, S "Identified"),
   (770060004, S "Update"), (770060005, S "Mitigated")]

/-- `STATUS_MAP.get(status, "Update")` (a `None` status takes the default). -/
def statusMapGet (st : Option Int) : List Char :=
  match st with
  | none => S "Update"
  | some n =>
    match STATUS_MAP.find? (fun p => decide (p.1 = n)) with
    | some p => p.2
    | none => S "Update"

/-- Python truthiness of a JSON value. -/
def jTruthy : JVal → Bool
  | .jnull => false
  | .jbool b => b
  | .jnum n => n ≠ 0
  | .jstr s => !s.isEmpty
  | .jarr xs => !xs.isEmpty
  | .jobj fs => !fs.isEmpty

/-- `a or b` over optional JSON values. -/
def jOr (a b : Option JVal) : Option JVal :=
  match a with
  | some v => if jTruthy v then some v else b
  | none => b

/-- `str(v or d)` for a string default `d`. -/
def jStrOrDefault (v : Option JVal) (d : List Char) : List Char :=
  match v with
  | some v => if jTruthy v then jvalStr v else d
  | none => d

/-- `int(x)` with `try/except` (`None` on failure). -/
def jToInt : Option JVal → Option Int
  | some (.jnum n) => some n
  | some (.jbool b) => some (if b then 1 else 0)
  | some (.jstr s) =>
    let t := pyStrip s
    (match t with
     | '-' :: ds => if ¬ds.isEmpty ∧ ds.all Char.isDigit then some (-(natOfDigits ds : Int)) else none
     | '+' :: ds => if ¬ds.isEmpty ∧ ds.all Char.isDigit then some (natOfDigits ds : Int) else none
     | ds => if ¬ds.isEmpty ∧ ds.all Char.isDigit then some (natOfDigits ds : Int) else none)
  | _ => none

/-- `urllib.parse.unquote`, ASCII percent-escapes (multi-byte UTF-8
sequences do not occur in this data). -/
def unquoteP : List Char → List Char
  | '%' :: a :: b :: rest =>
    if isHexC a && isHexC b && natOfHex [a, b] < 128 then
      Char.ofNat (natOfHex [a, b]) :: unquoteP rest
    else '%' :: unquoteP (a :: b :: rest)
  | c :: rest => c :: unquoteP rest
  | [] => []

/-- One parsed record of `parse_ssp_records_for_product`. -/
structure SSPRecord where
  rid : List Char
  productEnName : List Char
  rstatus : Option Int
  statusText : List Char
  subject : List Char
  otherImpact : List Char
  hisDate : PyDateTime
deriving DecidableEq, Repr

/-- The per-item body of `parse_ssp_records_for_product` (lines 148-188);
`dateutil.parser.parse` is embedded on the ISO-8601 subset this feed uses. -/
def sspItemRecord (product : List Char) (item : JVal) : Option SSPRecord :=
  let prod := pyStrip (jStrOrDefault (item.get (S "productEnName")) [])
  if prod ≠ product then none
  else
    let rid := jStrOrDefault
      (jOr (item.get (S "id")) (jOr (item.get (S "incidentId")) (item.get (S "caseId")))) []
    if rid.isEmpty then none
    else
      let st := jToInt (item.get (S "status"))
      let subject := pyStrip (unquoteP (jStrOrDefault
        (jOr (item.get (S "subject")) (item.get (S "title"))) (S "Incident")))
      let other := pyStrip (unquoteP (jStrOrDefault
        (jOr (item.get (S "otherImpact")) (item.get (S "impact"))) []))
      match jOr (item.get (S "hisDate"))
              (jOr (item.get (S "dateTime")) (item.get (S "createdDate"))) with
      | some v =>
        if jTruthy v then
          match isoParse (replaceZ (jvalStr v)) with
          | some dt =>
            some ⟨rid, prod, st, statusMapGet st, subject, other, astimezoneUTC dt⟩
          | none => none
        else none
      | none => none

/-- The array loop of `parse_ssp_records_for_product` (lines 135-189) over
the extracted array texts: a strict parse, the repair retry, `continue` on
failure, then the per-item filter. -/
def parseSspRecords (product : List Char) (arrays : List (List Char)) :
    List SSPRecord :=
  arrays.flatMap (fun arrTxt =>
    match parseArrayLenient arrTxt with
    | some (.jarr items) => items.filterMap (sspItemRecord product)
    | _ => [])

/-! ### `common/digest_export.py`: `_html_to_text_simple` / `_a_to_text` -/

/-- Matcher for `BR_RE = (?i)<br\s*/?>`. -/
def brTry (s : List Char) : Option (List Char × List Char) :=
  match s with
  | '<' :: b :: r :: rest =>
    if b.toLower = 'b' ∧ r.toLower = 'r' then
      match rest.dropWhile isWS with
      | '/' :: '>' :: rem => some (['\n'], rem)
      | '>' :: rem => some (['\n'], rem)
      | _ => none
    else none
  | _ => none

/-- Matcher for `TAG_NL_RE = (?is)</?(?:p|div|h[1-6])[^>]*>`. -/
def tagNlTry (s : List Char) : Option (List Char × List Char) :=
  match s with
  | '<' :: r0 =>
    let r1 := match r0 with
              | '/' :: r => r
              | r => r
    let afterName : Option (List Char) :=
      match ciPrefix (S "p") r1 with
      | some r => some r
      | none =>
        match ciPrefix (S "div") r1 with
        | some r => some r
        | none =>
          match r1 with
          | h :: d :: r =>
            if h.toLower = 'h' ∧ '1' ≤ d ∧ d ≤ '6' then some r else none
          | _ => none
    match afterName with
    | some r2 =>
      (match r2.span (fun c => decide (c ≠ '>')) with
       | (_, '>' :: rem) => some (['\n'], rem)
       | _ => none)
    | none => none
  | _ => none

/-- Matcher for `LI_OPEN_RE = (?is)<li[^>]*>` (replaced by `"- "`). -/
def liOpenTry (s : List Char) : Option (List Char × List Char) :=
  match s with
  | '<' :: l :: i :: rest =>
    if l.toLower = 'l' ∧ i.toLower = 'i' then
      match rest.span (fun c => decide (c ≠ '>')) with
      | (_, '>' :: rem) => some (S "- ", rem)
      | _ => none
    else none
  | _ => none

/-- Matcher for `LI_CLOSE_RE = (?is)</li\s*>`. -/
def liCloseTry (s : List Char) : Option (List Char × List Char) :=
  match s with
  | '<' :: '/' :: l :: i :: rest =>
    if l.toLower = 'l' ∧ i.toLower = 'i' then
      match rest.dropWhile isWS with
      | '>' :: rem => some (['\n'], rem)
      | _ => none
    else none
  | _ => none

/-- `[^>]*?href\s*=\s*"(.*?)"` inside an `<a ...>` tag: walk over non-`>`
characters; at the first reachable `href\s*=\s*"` take the lazy group up to
the next `"`. -/
def scanHref2 : List Char → Option (List Char × List Char)
  | [] => none
  | c :: rest =>
    if c = '>' then none
    else
      (match ciPrefix (S "href") (c :: rest) with
       | some r1 =>
         (match r1.dropWhile isWS with
          | '=' :: r2 =>
            (match r2.dropWhile isWS with
             | '"' :: r3 =>
               (match r3.span (fun x => decide (x ≠ '"')) with
                | (url, '"' :: r4) => some (url, r4)
                | _ => none)
             | _ => none)
          | _ => none)
       | none => none).orElse (fun _ => scanHref2 rest)

/-- `_a_to_text` (`common/digest_export.py`, lines 168-171): strip tags from
the anchor text, strip both groups, append `" (href)"` when the stripped
href is non-empty. -/
def aToText (href text : List Char) : List Char :=
  let h := pyStrip href
  let t := pyStrip (stripTagsOnly text)
  if h.isEmpty then t else t ++ S " (" ++ h ++ [')']

/-- Matcher for `A_TAG_RE = (?is)<a\b[^>]*?href\s*=\s*"(.*?)"[^>]*>`
`(.*?)</a\s*>`, replaced through `_a_to_text` (greedy scan, no
backtracking across the closing-quote choice). -/
def aTagTry (s : List Char) : Option (List Char × List Char) :=
  match s with
  | '<' :: a :: rest =>
    if (a.toLower == 'a') && (match rest.head? with
        | some c => !isWordChar c
        | none => true) then
      match scanHref2 rest with
      | some (url, afterQuote) =>
        (match afterQuote.span (fun c => decide (c ≠ '>')) with
         | (_, '>' :: body) =>
           (match scanUntilCloseA body with
            | some (text, rem) => some (aToText url text, rem)
            | none => none)
         | _ => none)
      | none => none
    else none
  | _ => none

/-- `s.replace("\r", "")`. -/
def removeCR (s : List Char) : List Char := s.filter (fun c => decide (c ≠ '\r'))

/-- Python `s.split("\n")`. -/
def splitNl : List Char → List (List Char)
  | [] => [[]]
  | c :: rest =>
    if c = '\n' then [] :: splitNl rest
    else
      match splitNl rest with
      | l :: ls => (c :: l) :: ls
      | [] => [[c]]

/-- Matcher for `re.sub(r"\n{3,}", "\n\n", s)`. -/
def nl3Try (s : List Char) : Option (List Char × List Char) :=
  match s with
  | '\n' :: '\n' :: '\n' :: rest =>
    some (S "\n\n", rest.dropWhile (fun c => decide (c = '\n')))
  | _ => none

def collapseNl3 (s : List Char) : List Char := subScan nl3Try s

/-- `_html_to_text_simple` (`common/digest_export.py`, lines 173-193). -/
def htmlToTextSimple (s : List Char) : List Char :=
  if s.isEmpty then []
  else
    let s1 := subScan brTry s
    let s2 := subScan tagNlTry s1
    let s3 := subScan liOpenTry s2
    let s4 := subScan liCloseTry s3
    let s5 := subScan aTagTry s4
    let s6 := stripTagsOnly s5
    let s7 := htmlUnescape s6
    let s8 := removeCR s7
    let s9 := joinNL ((splitNl s8).map (fun ln => pyRstrip (collapseST ln)))
    let s10 := collapseNl3 s9
    pyStrip s10

/-- No markup-significant character and no whitespace: the clean alphabet of
the C6 round-trip statement. -/
def cleanC (c : Char) : Bool :=
  !(c == '<') && !(c == '>') && !(c == '&') && !(c == '"') && !isWS c

/-- A matcher that can only fire when the head character satisfies `trig`. -/
def HeadTrig (try_ : List Char → Option (List Char × List Char))
    (trig : Char → Bool) : Prop :=
  ∀ c rest, trig c = false → try_ (c :: rest) = none

/-- A matcher fires nowhere inside `p`, whatever follows it. -/
def PassThru (try_ : List Char → Option (List Char × List Char))
    (p : List Char) : Prop :=
  ∀ t rest, t ≠ [] → t <:+ p → try_ (t ++ rest) = none

/-! ### Basic lemmas about the Python string primitives -/

theorem pyLstrip_cons_ws {c : Char} (h : isWS c = true) (s : List Char) :
    pyLstrip (c :: s) = pyLstrip s := by
  simp [pyLstrip, List.dropWhile_cons, h]

theorem pyLstrip_cons_not_ws {c : Char} (h : isWS c = false) (s : List Char) :
    pyLstrip (c :: s) = c :: s := by
  simp [pyLstrip, List.dropWhile_cons, h]

theorem pyLstrip_head? {s : List Char} {c : Char}
    (h : (pyLstrip s).head? = some c) : isWS c = false := by
  induction s with
  | nil => simp [pyLstrip] at h
  | cons a t ih =>
    by_cases ha : isWS a
    · rw [pyLstrip_cons_ws ha] at h; exact ih h
    · rw [pyLstrip_cons_not_ws (by simpa using ha)] at h
      simp at h; subst h; simpa using ha

theorem pyLstrip_idem (s : List Char) : pyLstrip (pyLstrip s) = pyLstrip s := by
  cases hh : (pyLstrip s) with
  | nil => rfl
  | cons a t =>
    have ha : isWS a = false := pyLstrip_head? (s := s) (by rw [hh]; rfl)
    exact pyLstrip_cons_not_ws ha t

theorem pyLstrip_append (s t : List Char) :
    pyLstrip (s ++ t) =
      if pyLstrip s = [] then pyLstrip t else pyLstrip s ++ t := by
  simp only [pyLstrip, List.dropWhile_append]
  by_cases h : List.dropWhile (fun c => isWS c) s = []
  · simp [h]
  · simp [h, List.isEmpty_iff]

theorem pyRstrip_concat_ws {c : Char} (h : isWS c = true) (s : List Char) :
    pyRstrip (s ++ [c]) = pyRstrip s := by
  simp [pyRstrip, List.dropWhile_cons, h]

theorem pyRstrip_getLast? {s : List Char} {c : Char}
    (h : (pyRstrip s).getLast? = some c) : isWS c = false := by
  rw [pyRstrip, List.getLast?_reverse] at h
  have := List.head?_reverse s
  -- head? of a dropWhile starting list
  have key : ∀ (l : List Char), (List.dropWhile (fun c => isWS c) l).head? = some c →
      isWS c = false := fun l hl => pyLstrip_head? (s := l) hl
  exact key _ h

theorem pyRstrip_suffix_reverse (s : List Char) :
    pyRstrip s = (List.dropWhile (fun c => isWS c) s.reverse).reverse := rfl

theorem pyRstrip_prefix (s : List Char) : pyRstrip s <+: s := by
  rw [pyRstrip_suffix_reverse]
  have h := List.dropWhile_suffix (l := s.reverse) (fun c => isWS c)
  have := List.IsSuffix.reverse h
  simpa using this

theorem pyRstrip_head? {s : List Char} (h : pyRstrip s ≠ []) :
    (pyRstrip s).head? = s.head? := by
  obtain ⟨t, ht⟩ := pyRstrip_prefix s
  cases hh : (pyRstrip s).head? with
  | none => rw [List.head?_eq_none_iff] at hh; exact absurd hh h
  | some a =>
    conv_rhs => rw [← ht]
    rw [List.head?_append, hh]
    rfl

theorem pyRstrip_idem (s : List Char) : pyRstrip (pyRstrip s) = pyRstrip s := by
  rw [pyRstrip_suffix_reverse, pyRstrip_suffix_reverse, List.reverse_reverse]
  congr 1
  cases hh : List.dropWhile (fun c => isWS c) s.reverse with
  | nil => simp
  | cons a t =>
    have ha : isWS a = false := pyLstrip_head? (s := s.reverse) (by simp [pyLstrip, hh])
    simp [List.dropWhile_cons, ha]

theorem pyStrip_idem (s : List Char) : pyStrip (pyStrip s) = pyStrip s := by
  by_cases h : pyStrip s = []
  · rw [h]; rfl
  · have hhead : (pyStrip s).head? = (pyLstrip s).head? := pyRstrip_head? h
    have hl : pyLstrip (pyStrip s) = pyStrip s := by
      cases hc : pyStrip s with
      | nil => exact absurd hc h
      | cons a t =>
        have hha : (pyLstrip s).head? = some a := by rw [← hhead, hc]; rfl
        have ha : isWS a = false := pyLstrip_head? hha
        rw [pyLstrip_cons_not_ws ha]
    show pyRstrip (pyLstrip (pyStrip s)) = pyStrip s
    rw [hl]
    show pyRstrip (pyRstrip (pyLstrip s)) = pyStrip s
    rw [pyRstrip_idem]
    rfl

theorem pyRstrip_eq_nil_of_allWS {s : List Char} (h : ∀ c ∈ s, isWS c = true) :
    pyRstrip s = [] := by
  rw [pyRstrip_suffix_reverse]
  have : List.dropWhile (fun c => isWS c) s.reverse = [] := by
    rw [List.dropWhile_eq_nil_iff]
    intro x hx; exact h x (by simpa using hx)
  simp [this]

theorem pyRstrip_append (s t : List Char) :
    pyRstrip (s ++ t) = if pyRstrip t = [] then pyRstrip s else s ++ pyRstrip t := by
  have hd : pyRstrip (s ++ t) =
      (List.dropWhile (fun c => isWS c) (t.reverse ++ s.reverse)).reverse := by
    rw [pyRstrip_suffix_reverse, List.reverse_append]
  rw [hd, List.dropWhile_append]
  by_cases h : List.dropWhile (fun c => isWS c) t.reverse = []
  · have ht : pyRstrip t = [] := by rw [pyRstrip_suffix_reverse, h]; rfl
    simp [h, ht, pyRstrip_suffix_reverse]
  · have ht : pyRstrip t ≠ [] := by
      rw [pyRstrip_suffix_reverse]; simpa using h
    simp [List.isEmpty_iff, h, ht, pyRstrip_suffix_reverse]

theorem pyRstrip_cons (c : Char) (t : List Char) :
    pyRstrip (c :: t) =
      if pyRstrip t = [] then (if isWS c then [] else [c]) else c :: pyRstrip t := by
  have := pyRstrip_append [c] t
  simp only [List.singleton_append] at this
  rw [this]
  by_cases h : pyRstrip t = []
  · simp [h, pyRstrip, List.dropWhile_cons]
    by_cases hc : isWS c <;> simp [hc]
  · simp [h]

set_option maxHeartbeats 1000000 in
theorem pySplitlines_cons (c : Char) (rest : List Char) :
    pySplitlines (c :: rest) =
      if c = '\r' ∧ rest.head? = some '\n' then [] :: pySplitlines rest.tail
      else if isBreak c then [] :: pySplitlines rest
      else
        match pySplitlines rest with
        | [] => [[c]]
        | l :: ls => (c :: l) :: ls := by
  rcases rest with _ | ⟨e, rest2⟩
  · simp only [List.head?_nil, List.tail_nil]
    rw [if_neg (by simp)]
    by_cases hr : c = '\r'
    · subst hr; rfl
    · simp [pySplitlines, hr]
  · by_cases hr : c = '\r'
    · subst hr
      by_cases hn : e = '\n'
      · subst hn
        rw [if_pos ⟨rfl, rfl⟩]
        rfl
      · rw [if_neg (by simp [hn])]
        simp [pySplitlines, hn]
    · rw [if_neg (by simp [hr])]
      simp [pySplitlines, hr]

theorem pySplitlines_ne_nil {s : List Char} (h : s ≠ []) : pySplitlines s ≠ [] := by
  cases s with
  | nil => exact absurd rfl h
  | cons c rest =>
    rw [pySplitlines_cons]
    by_cases h1 : c = '\r' ∧ rest.head? = some '\n'
    · simp [h1]
    · by_cases h2 : isBreak c
      · simp [h1, h2]
      · simp only [h1, h2, if_false, if_true, ite_false]
        cases pySplitlines rest <;> simp

theorem pySplitlines_eq_nil_iff {s : List Char} : pySplitlines s = [] ↔ s = [] := by
  constructor
  · intro h
    by_contra hs
    exact pySplitlines_ne_nil hs h
  · intro h; subst h; rw [pySplitlines]

theorem dropLeadingE_cons_nil (ls : List (List Char)) :
    dropLeadingE ([] :: ls) = dropLeadingE ls := by
  simp [dropLeadingE, List.dropWhile_cons]

theorem dropLeadingE_cons_ne {l : List Char} (h : l ≠ []) (ls : List (List Char)) :
    dropLeadingE (l :: ls) = l :: ls := by
  simp [dropLeadingE, List.dropWhile_cons, List.isEmpty_iff, h]

theorem trimEmpties_cons_nil (ls : List (List Char)) :
    trimEmpties ([] :: ls) = trimEmpties ls := by
  rw [trimEmpties, dropLeadingE_cons_nil]; rfl

theorem dropTrailingE_concat_nil (ls : List (List Char)) :
    dropTrailingE (ls ++ [[]]) = dropTrailingE ls := by
  simp [dropTrailingE, List.dropWhile_cons]

theorem dropLeadingE_append (ls ms : List (List Char)) :
    dropLeadingE (ls ++ ms) =
      if dropLeadingE ls = [] then dropLeadingE ms else dropLeadingE ls ++ ms := by
  simp only [dropLeadingE, List.dropWhile_append]
  by_cases h : List.dropWhile (fun l : List Char => l.isEmpty) ls = []
  · simp [h]
  · simp [h, List.isEmpty_iff]

theorem getLast?_cons_ne {α : Type} (a : α) {l : List α} (h : l ≠ []) :
    (a :: l).getLast? = l.getLast? := by
  cases l with
  | nil => exact absurd rfl h
  | cons b t => rfl

theorem trimEmpties_concat_nil (ls : List (List Char)) :
    trimEmpties (ls ++ [[]]) = trimEmpties ls := by
  rw [trimEmpties, trimEmpties, dropLeadingE_append]
  by_cases h : dropLeadingE ls = []
  · rw [if_pos h, h]
    simp [dropLeadingE, dropTrailingE]
  · rw [if_neg h]
    exact dropTrailingE_concat_nil _

theorem isWS_of_isBreak {c : Char} (h : isBreak c = true) : isWS c = true := by
  simp [isWS, h]

theorem replaceNbsp_ws {c : Char} (h : isWS c = true) :
    isWS (if c = ' ' then ' ' else c) = true := by
  by_cases hc : c = ' '
  · simp [hc]
    decide
  · simp [hc, h]

theorem lineClean_cons_ws {c : Char} (h : isWS c = true) (l : List Char) :
    lineClean (c :: l) = lineClean l := by
  unfold lineClean replaceNbsp
  rw [List.map_cons]
  unfold pyStrip
  rw [pyLstrip_cons_ws (replaceNbsp_ws h)]

theorem lineClean_concat_ws {c : Char} (h : isWS c = true) (l : List Char) :
    lineClean (l ++ [c]) = lineClean l := by
  unfold lineClean replaceNbsp
  rw [List.map_append, List.map_singleton]
  unfold pyStrip
  rw [pyLstrip_append]
  by_cases h0 : pyLstrip (List.map (fun c => if c = ' ' then ' ' else c) l) = []
  · rw [if_pos h0, h0]
    have : pyLstrip [if c = ' ' then ' ' else c] = [] := by
      rw [show ([if c = ' ' then ' ' else c] : List Char) =
        [] ++ [if c = ' ' then ' ' else c] from rfl]
      rw [show pyLstrip ([] ++ [if c = ' ' then ' ' else c]) =
        pyLstrip ((if c = ' ' then ' ' else c) :: []) from rfl]
      rw [pyLstrip_cons_ws (replaceNbsp_ws h)]
      rfl
    rw [this]
  · rw [if_neg h0, pyRstrip_concat_ws (replaceNbsp_ws h)]

theorem collapseWS_head_not_ws {x : List Char} {a : Char}
    (hh : x.head? = some a) (ha : isWS a = false) :
    (collapseWS x).head? = some a := by
  cases x with
  | nil => simp at hh
  | cons b t =>
    simp only [List.head?_cons, Option.some.injEq] at hh
    subst hh
    simp [collapseWS, collapseWSAux, ha]

theorem collapseWSAux_getLast_not_ws :
    ∀ (x : List Char) {a : Char} (flag : Bool), x.getLast? = some a → isWS a = false →
      (collapseWSAux flag x).getLast? = some a := by
  intro x
  induction x with
  | nil => intro a flag h; simp at h
  | cons c rest ih =>
    intro a flag hl ha
    cases hr : rest with
    | nil =>
      subst hr
      simp only [List.getLast?_singleton, Option.some.injEq] at hl
      subst hl
      simp [collapseWSAux, ha]
    | cons b t =>
      subst hr
      have hlast : (b :: t).getLast? = some a := hl
      have hne : ∀ flag, (collapseWSAux flag (b :: t)).getLast? = some a := by
        intro flag; exact ih flag hlast ha
      have hnonnil : ∀ flag, collapseWSAux flag (b :: t) ≠ [] := by
        intro flag hnil
        have := hne flag; rw [hnil] at this; simp at this
      rw [collapseWSAux]
      by_cases hc : isWS c
      · rw [if_pos hc]
        by_cases hf : flag
        · rw [if_pos hf]; exact hne true
        · rw [if_neg hf, getLast?_cons_ne _ (hnonnil true)]
          exact hne true
      · rw [if_neg hc, getLast?_cons_ne _ (hnonnil false)]
        exact hne false

theorem collapseWS_getLast_not_ws {x : List Char} {a : Char}
    (hl : x.getLast? = some a) (ha : isWS a = false) :
    (collapseWS x).getLast? = some a :=
  collapseWSAux_getLast_not_ws x false hl ha

theorem pyStrip_head? {y : List Char} {a : Char}
    (h : (pyStrip y).head? = some a) : isWS a = false := by
  have hne : pyStrip y ≠ [] := by
    intro hc; rw [hc] at h; simp at h
  have := pyRstrip_head? (s := pyLstrip y) hne
  rw [pyStrip] at h
  rw [this] at h
  exact pyLstrip_head? h

theorem pyStrip_getLast? {y : List Char} {a : Char}
    (h : (pyStrip y).getLast? = some a) : isWS a = false :=
  pyRstrip_getLast? h

theorem dropWhile_head_false {α : Type} (p : α → Bool) :
    ∀ (l : List α) {a : α}, (l.dropWhile p).head? = some a → p a = false := by
  intro l
  induction l with
  | nil => intro a h; simp at h
  | cons b t ih =>
    intro a h
    rw [List.dropWhile_cons] at h
    by_cases hb : p b
    · rw [if_pos hb] at h; exact ih h
    · rw [if_neg hb] at h
      simp at h
      subst h
      simpa using hb

theorem lineClean_good (ln : List Char) : GoodL (lineClean ln) := by
  constructor
  · intro c hc
    unfold lineClean at hc
    cases hy : (pyStrip (replaceNbsp ln)).head? with
    | none =>
      rw [List.head?_eq_none_iff] at hy
      rw [hy] at hc
      simp [collapseWS, collapseWSAux] at hc
    | some b =>
      have hb : isWS b = false := pyStrip_head? hy
      rw [collapseWS_head_not_ws hy hb] at hc
      simp at hc; subst hc; exact hb
  · intro c hc
    unfold lineClean at hc
    cases hy : (pyStrip (replaceNbsp ln)).getLast? with
    | none =>
      rw [List.getLast?_eq_none_iff] at hy
      rw [hy] at hc
      simp [collapseWS, collapseWSAux] at hc
    | some b =>
      have hb : isWS b = false := pyStrip_getLast? hy
      rw [collapseWS_getLast_not_ws hy hb] at hc
      simp at hc; subst hc; exact hb

/-! ### Stripping a join of good lines trims the empty lines -/

theorem joinNL_cons (l : List Char) (ls : List (List Char)) (h : ls ≠ []) :
    joinNL (l :: ls) = l ++ '\n' :: joinNL ls := by
  cases ls with
  | nil => exact absurd rfl h
  | cons m ms => rfl

theorem joinNL_allWS {ls : List (List Char)} (h : ∀ l ∈ ls, l = []) :
    ∀ c ∈ joinNL ls, isWS c = true := by
  induction ls with
  | nil => intro c hc; simp [joinNL] at hc
  | cons l ms ih =>
    intro c hc
    cases ms with
    | nil =>
      rw [h l (by simp)] at hc
      simp [joinNL] at hc
    | cons m ms2 =>
      rw [joinNL_cons _ _ (by simp), h l (by simp)] at hc
      simp at hc
      rcases hc with rfl | hc
      · decide
      · exact ih (fun x hx => h x (by simp [hx])) c hc

theorem pyRstrip_eq_self_of_good {l : List Char} (hgood : GoodL l) :
    pyRstrip l = l := by
  cases hl : l with
  | nil => rfl
  | cons a t =>
    have hlast : ∃ b, (a :: t).getLast? = some b := by
      cases hx : (a :: t).getLast? with
      | none => simp at hx
      | some b => exact ⟨b, rfl⟩
    obtain ⟨b, hb⟩ := hlast
    have hbw : isWS b = false := by
      apply hgood.2; rw [hl]; exact hb
    rw [pyRstrip_suffix_reverse]
    have hh : (a :: t).reverse.head? = some b := by
      rw [List.head?_reverse]; exact hb
    cases hr : (a :: t).reverse with
    | nil => simp at hr
    | cons x xs =>
      rw [hr] at hh; simp at hh; subst hh
      rw [List.dropWhile_cons, if_neg (by simp [hbw])]
      rw [← hr, List.reverse_reverse]

theorem pyLstrip_joinNL {ls : List (List Char)} (h : ∀ l ∈ ls, GoodL l) :
    pyLstrip (joinNL ls) = joinNL (dropLeadingE ls) := by
  induction ls with
  | nil => rfl
  | cons l ms ih =>
    cases hl : l with
    | nil =>
      rw [dropLeadingE_cons_nil]
      cases ms with
      | nil => rfl
      | cons m ms2 =>
        rw [joinNL_cons _ _ (by simp)]
        simp only [List.nil_append]
        rw [pyLstrip_cons_ws (by decide)]
        exact ih (fun x hx => h x (by simp [hx]))
    | cons a t =>
      have ha : isWS a = false := by
        have := (h l (by simp)).1 a (by rw [hl]; rfl)
        exact this
      rw [dropLeadingE_cons_ne (by simp)]
      cases ms with
      | nil =>
        show pyLstrip (a :: t) = a :: t
        exact pyLstrip_cons_not_ws ha t
      | cons m ms2 =>
        rw [joinNL_cons _ _ (by simp)]
        show pyLstrip ((a :: t) ++ '\n' :: joinNL (m :: ms2)) =
          (a :: t) ++ '\n' :: joinNL (m :: ms2)
        rw [show ((a :: t) ++ '\n' :: joinNL (m :: ms2)) =
          a :: (t ++ '\n' :: joinNL (m :: ms2)) from rfl]
        exact pyLstrip_cons_not_ws ha _

theorem joinNL_getLast_ne_nil {ls : List (List Char)}
    (hne : ls ≠ []) (hlast : ls.getLast? ≠ some []) : joinNL ls ≠ [] := by
  induction ls with
  | nil => exact absurd rfl hne
  | cons l ms ih =>
    cases ms with
    | nil =>
      intro hc
      simp only [joinNL] at hc
      subst hc
      simp at hlast
    | cons m ms2 =>
      rw [joinNL_cons _ _ (by simp)]
      intro hc
      rcases l with _ | ⟨a, t⟩
      · simp at hc
      · simp at hc

theorem dropTrailingE_ne_getLast? {ls : List (List Char)} (h : dropTrailingE ls ≠ []) :
    (dropTrailingE ls).getLast? ≠ some [] := by
  intro hc
  rw [dropTrailingE, List.getLast?_reverse] at hc
  cases hh : List.dropWhile (fun l : List Char => l.isEmpty) ls.reverse with
  | nil => rw [dropTrailingE, hh] at h; simp at h
  | cons x xs =>
    rw [hh] at hc
    simp at hc
    have hx : (x : List Char).isEmpty = false :=
      dropWhile_head_false _ ls.reverse (by rw [hh]; rfl)
    rw [hc] at hx
    simp at hx

theorem dropTrailingE_eq_nil_iff {ls : List (List Char)} :
    dropTrailingE ls = [] ↔ ∀ l ∈ ls, l = [] := by
  rw [dropTrailingE]
  constructor
  · intro h l hl
    have : List.dropWhile (fun l : List Char => l.isEmpty) ls.reverse = [] := by
      have := congrArg List.reverse h
      simpa using this
    rw [List.dropWhile_eq_nil_iff] at this
    have := this l (by simpa using hl)
    simpa [List.isEmpty_iff] using this
  · intro h
    have : List.dropWhile (fun l : List Char => l.isEmpty) ls.reverse = [] := by
      rw [List.dropWhile_eq_nil_iff]
      intro x hx
      simp [List.isEmpty_iff]
      exact h x (by simpa using hx)
    rw [this]; rfl

theorem dropTrailingE_cons_of_tail {l : List Char} {ms : List (List Char)}
    (h : dropTrailingE ms ≠ []) :
    dropTrailingE (l :: ms) = l :: dropTrailingE ms := by
  have hne : List.dropWhile (fun l : List Char => l.isEmpty) ms.reverse ≠ [] := by
    intro hc; rw [dropTrailingE, hc] at h; simp at h
  rw [dropTrailingE, List.reverse_cons, List.dropWhile_append]
  rw [if_neg (by simpa [List.isEmpty_iff] using hne)]
  simp [dropTrailingE]

theorem dropTrailingE_cons_of_tail_nil {l : List Char} {ms : List (List Char)}
    (h : dropTrailingE ms = []) :
    dropTrailingE (l :: ms) = if l.isEmpty then [] else [l] := by
  have hall : List.dropWhile (fun l : List Char => l.isEmpty) ms.reverse = [] := by
    have := congrArg List.reverse h
    simpa [dropTrailingE] using this
  rw [dropTrailingE, List.reverse_cons, List.dropWhile_append]
  rw [if_pos (by simp [hall])]
  by_cases hl : l.isEmpty
  · simp [List.dropWhile_cons, hl]
  · simp [List.dropWhile_cons, hl]

theorem pyRstrip_joinNL {ls : List (List Char)} (h : ∀ l ∈ ls, GoodL l) :
    pyRstrip (joinNL ls) = joinNL (dropTrailingE ls) := by
  induction ls with
  | nil => rfl
  | cons l ms ih =>
    cases ms with
    | nil =>
      show pyRstrip (joinNL [l]) = joinNL (dropTrailingE [l])
      have hr : pyRstrip l = l := pyRstrip_eq_self_of_good (h l (by simp))
      cases hl : l with
      | nil => rfl
      | cons a t =>
        rw [hl] at hr
        have hd : dropTrailingE [a :: t] = [a :: t] := by
          simp [dropTrailingE, List.dropWhile_cons]
        show pyRstrip (a :: t) = joinNL (dropTrailingE [a :: t])
        rw [hd]
        exact hr
    | cons m ms2 =>
      have hms : (m :: ms2) ≠ ([] : List (List Char)) := by simp
      rw [joinNL_cons _ _ hms]
      have ihm := ih (fun x hx => h x (by simp [hx]))
      by_cases hdt : dropTrailingE (m :: ms2) = []
      · have hall : ∀ x ∈ (m :: ms2), x = ([] : List Char) :=
          dropTrailingE_eq_nil_iff.mp hdt
        have hws : ∀ c ∈ ('\n' :: joinNL (m :: ms2)), isWS c = true := by
          intro c hc
          simp at hc
          rcases hc with rfl | hc
          · decide
          · exact joinNL_allWS hall c hc
        rw [pyRstrip_append, if_pos (pyRstrip_eq_nil_of_allWS hws)]
        rw [dropTrailingE_cons_of_tail_nil hdt]
        have hr : pyRstrip l = l := pyRstrip_eq_self_of_good (h l (by simp))
        by_cases hl : l.isEmpty
        · rw [if_pos hl]
          rw [List.isEmpty_iff] at hl
          rw [hl]; rfl
        · rw [if_neg hl, hr]; rfl
      · have hjoin_ne : joinNL (dropTrailingE (m :: ms2)) ≠ [] :=
          joinNL_getLast_ne_nil hdt (dropTrailingE_ne_getLast? hdt)
        have hry : pyRstrip ('\n' :: joinNL (m :: ms2)) =
            '\n' :: joinNL (dropTrailingE (m :: ms2)) := by
          rw [pyRstrip_cons, ihm, if_neg hjoin_ne]
        rw [pyRstrip_append, hry, if_neg (by simp)]
        rw [dropTrailingE_cons_of_tail hdt, joinNL_cons _ _ hdt]

theorem pyStrip_joinNL {ls : List (List Char)} (h : ∀ l ∈ ls, GoodL l) :
    pyStrip (joinNL ls) = joinNL (trimEmpties ls) := by
  rw [pyStrip, pyLstrip_joinNL h, pyRstrip_joinNL, trimEmpties]
  intro x hx
  have : x ∈ ls := List.Sublist.mem hx (List.dropWhile_sublist _)
  exact h x this

/-- `_norm_for_dedupe` factors through the trimmed cleaned-line
decomposition. -/
theorem normForDedupe_eq_key (s : List Char) :
    normForDedupe s = pyLower (joinNL (normKey s)) := by
  rw [normForDedupe, normKey]
  congr 1
  apply pyStrip_joinNL
  intro l hl
  simp at hl
  obtain ⟨x, _, rfl⟩ := hl
  exact lineClean_good x

/-! ### Appending one character to `pySplitlines` input -/

theorem appendLast_cons_of_ne (l : List Char) {ls : List (List Char)} (h : ls ≠ [])
    (c : Char) : appendLast (l :: ls) c = l :: appendLast ls c := by
  cases ls with
  | nil => exact absurd rfl h
  | cons m ms => rfl

theorem appendLast_ne_nil (ls : List (List Char)) (c : Char) : appendLast ls c ≠ [] := by
  cases ls with
  | nil => simp [appendLast]
  | cons l ms =>
    cases ms with
    | nil => simp [appendLast]
    | cons m ms2 => simp [appendLast]

theorem lastBreak_cons (d : Char) {s : List Char} (h : s ≠ []) :
    lastBreak (d :: s) = lastBreak s := by
  rw [lastBreak, lastBreak, getLast?_cons_ne d h]

theorem pySplitlines_singleton (c : Char) :
    pySplitlines [c] = [if isBreak c then [] else [c]] := by
  rw [pySplitlines_cons]
  have h1 : ¬(c = '\r' ∧ ([] : List Char).head? = some '\n') := by simp
  rw [if_neg h1]
  by_cases hb : isBreak c
  · rw [if_pos hb, if_pos hb, pySplitlines]
  · rw [if_neg hb, if_neg hb, pySplitlines]

theorem pySplitlines_append (s : List Char) (c : Char) :
    pySplitlines (s ++ [c]) = splitAppendRHS s c := by
  have main : ∀ (n : Nat) (s : List Char), s.length ≤ n → ∀ c,
      pySplitlines (s ++ [c]) = splitAppendRHS s c := by
    intro n
    induction n with
    | zero =>
      intro s hs c
      have : s = [] := List.eq_nil_of_length_eq_zero (Nat.le_zero.mp hs)
      subst this
      rw [List.nil_append, pySplitlines_singleton, splitAppendRHS]
      simp
    | succ n ih =>
      intro s hs c
      cases s with
      | nil =>
        rw [List.nil_append, pySplitlines_singleton, splitAppendRHS]
        simp
      | cons d s' =>
        cases s' with
        | nil =>
          -- s = [d]
          rw [List.cons_append, List.nil_append, pySplitlines_cons]
          simp only [List.head?_cons, List.tail_cons, Option.some.injEq]
          have hlbd : lastBreak [d] = isBreak d := by simp [lastBreak]
          have hrhs : splitAppendRHS [d] c =
              if isBreak c then
                if d = '\r' ∧ c = '\n' then pySplitlines [d]
                else if isBreak d then pySplitlines [d] ++ [[]]
                else pySplitlines [d]
              else
                if isBreak d then pySplitlines [d] ++ [[c]]
                else appendLast (pySplitlines [d]) c := by
            rw [splitAppendRHS, hlbd]
            simp only [List.isEmpty_cons, List.getLast?_singleton, Option.some.injEq]
            rw [if_neg (by simp)]
          rw [hrhs]
          by_cases hc : isBreak c
          · by_cases h2 : d = '\r' ∧ c = '\n'
            · obtain ⟨rfl, rfl⟩ := h2
              rw [if_pos ⟨rfl, rfl⟩, if_pos (by decide), if_pos ⟨rfl, rfl⟩]
              decide
            · rw [if_neg h2, if_pos hc, if_neg h2]
              by_cases hd : isBreak d
              · rw [if_pos hd, if_pos hd, pySplitlines_singleton, pySplitlines_singleton,
                  if_pos hc, if_pos hd]
                rfl
              · rw [if_neg hd, if_neg hd, pySplitlines_singleton, pySplitlines_singleton,
                  if_pos hc, if_neg hd]
          · have h2 : ¬(d = '\r' ∧ c = '\n') := by
              rintro ⟨rfl, rfl⟩
              exact hc (by decide)
            rw [if_neg h2, if_neg hc]
            by_cases hd : isBreak d
            · rw [if_pos hd, if_pos hd, pySplitlines_singleton, pySplitlines_singleton,
                if_neg hc, if_pos hd]
              rfl
            · rw [if_neg hd, if_neg hd, pySplitlines_singleton, pySplitlines_singleton,
                if_neg hc, if_neg hd]
              rfl
        | cons e s'' =>
          -- s = d :: e :: s''  (s' := e :: s'' is nonempty)
          have hlen2 : s''.length ≤ n := by simp at hs; omega
          have hlen1 : (e :: s'').length ≤ n := by simp at hs; simpa using hs
          have hne : (e :: s'') ≠ ([] : List Char) := by simp
          have hPne : pySplitlines (e :: s'') ≠ [] := pySplitlines_ne_nil hne
          have happ : pySplitlines ((e :: s'') ++ [c]) = splitAppendRHS (e :: s'') c :=
            ih _ hlen1 c
          have hgl : (d :: e :: s'').getLast? = (e :: s'').getLast? :=
            getLast?_cons_ne d hne
          have hlb : lastBreak (d :: e :: s'') = lastBreak (e :: s'') :=
            lastBreak_cons d hne
          rw [List.cons_append, pySplitlines_cons]
          by_cases h1 : d = '\r' ∧ e = '\n'
          · -- leading \r\n pair: both sides drop it
            obtain ⟨rfl, rfl⟩ := h1
            rw [if_pos (by simp)]
            simp only [List.cons_append, List.tail_cons]
            have happ2 : pySplitlines (s'' ++ [c]) = splitAppendRHS s'' c :=
              ih _ hlen2 c
            rw [happ2]
            rw [splitAppendRHS]
            have hP : pySplitlines ('\r' :: '\n' :: s'') = [] :: pySplitlines s'' := by
              rw [pySplitlines_cons, if_pos (by simp)]
              simp
            rw [splitAppendRHS]
            by_cases hsE : s'' = []
            · subst hsE
              by_cases hc : isBreak c
              · simp [splitAppendRHS, lastBreak, hc]
                decide
              · simp [splitAppendRHS, lastBreak, hc, appendLast]
                rw [if_pos (by decide : isBreak '\n' = true)]
                rfl
            · have hs''ne : s'' ≠ [] := hsE
              have hPs'' : pySplitlines s'' ≠ [] := pySplitlines_ne_nil hs''ne
              have hgl2 : ('\r' :: '\n' :: s'').getLast? = s''.getLast? := by
                rw [getLast?_cons_ne _ (by simp), getLast?_cons_ne _ hs''ne]
              have hlb2 : lastBreak ('\r' :: '\n' :: s'') = lastBreak s'' := by
                rw [lastBreak_cons _ (by simp), lastBreak_cons _ hs''ne]
              rw [if_neg (show ¬(s''.isEmpty = true) by simp [List.isEmpty_iff, hs''ne])]
              rw [if_neg (show ¬(('\r' :: '\n' :: s'').isEmpty = true) by simp)]
              rw [hP, hgl2, hlb2]
              by_cases hc : isBreak c
              · by_cases h2 : s''.getLast? = some '\r' ∧ c = '\n'
                · simp [hc, h2, (by decide : isBreak '\n' = true)]
                · by_cases h3 : lastBreak s''
                  · simp [hc, h2, h3]
                  · simp [hc, h2, h3]
              · by_cases h3 : lastBreak s''
                · simp [hc, h3]
                · simp [hc, h3, appendLast_cons_of_ne _ hPs'']
          · have h1' : ¬(d = '\r' ∧ ((e :: s'') ++ [c] : List Char).head? = some '\n') := by
              simpa using h1
            rw [if_neg h1']
            have hP : pySplitlines (d :: e :: s'') =
                if isBreak d then [] :: pySplitlines (e :: s'')
                else match pySplitlines (e :: s'') with
                  | [] => [[d]]
                  | l :: ls => (d :: l) :: ls := by
              rw [pySplitlines_cons, if_neg (by simpa using h1)]
            by_cases hd : isBreak d
            · rw [if_pos hd]
              rw [happ]
              rw [splitAppendRHS, splitAppendRHS]
              rw [if_neg (show ¬((e :: s'').isEmpty = true) by simp)]
              rw [if_neg (show ¬((d :: e :: s'').isEmpty = true) by simp)]
              rw [hP, if_pos hd]
              rw [hgl, hlb]
              by_cases hc : isBreak c
              · by_cases h2 : (e :: s'').getLast? = some '\r' ∧ c = '\n'
                · simp [hc, h2, (by decide : isBreak '\n' = true)]
                · by_cases h3 : lastBreak (e :: s'')
                  · simp [hc, h2, h3]
                  · simp [hc, h2, h3]
              · by_cases h3 : lastBreak (e :: s'')
                · simp [hc, h3]
                · simp [hc, h3, appendLast_cons_of_ne _ hPne]
            · rw [if_neg hd]
              rw [happ]
              rw [splitAppendRHS, splitAppendRHS]
              rw [if_neg (show ¬((e :: s'').isEmpty = true) by simp)]
              rw [if_neg (show ¬((d :: e :: s'').isEmpty = true) by simp)]
              rw [hP, if_neg hd]
              rw [hgl, hlb]
              obtain ⟨l, ls, hPeq⟩ : ∃ l ls, pySplitlines (e :: s'') = l :: ls := by
                cases hx : pySplitlines (e :: s'') with
                | nil => exact absurd hx hPne
                | cons l ls => exact ⟨l, ls, rfl⟩
              rw [hPeq]
              by_cases hc : isBreak c
              · by_cases h2 : (e :: s'').getLast? = some '\r' ∧ c = '\n'
                · simp [hc, h2, (by decide : isBreak '\n' = true)]
                · by_cases h3 : lastBreak (e :: s'')
                  · simp [hc, h2, h3]
                  · simp [hc, h2, h3]
              · by_cases h3 : lastBreak (e :: s'')
                · simp [hc, h3]
                · cases ls with
                  | nil => simp [hc, h3, appendLast]
                  | cons m ms =>
                    simp [hc, h3]
                    rw [appendLast_cons_of_ne l (by simp), appendLast_cons_of_ne (d :: l) (by simp)]
  exact main s.length s le_rfl c

/-! ### The dedup key is invariant under `str.strip` -/

theorem lineClean_nil : lineClean [] = [] := rfl

theorem lineClean_ws_singleton {c : Char} (hc : isWS c = true) : lineClean [c] = [] := by
  have := lineClean_cons_ws hc ([])
  simpa using this

theorem trimEmpties_singleton_nil : trimEmpties [[]] = [] := by
  simp [trimEmpties, dropLeadingE, dropTrailingE]

theorem normKey_cons_ws {c : Char} (hc : isWS c = true) (t : List Char) :
    normKey (c :: t) = normKey t := by
  rw [normKey, normKey, pySplitlines_cons]
  by_cases h1 : c = '\r' ∧ t.head? = some '\n'
  · rw [if_pos h1]
    obtain ⟨rfl, h2⟩ := h1
    cases t with
    | nil => simp at h2
    | cons e t2 =>
      simp only [List.head?_cons, Option.some.injEq] at h2
      subst h2
      rw [show ('\n' :: t2 : List Char).tail = t2 from rfl]
      rw [pySplitlines_cons, if_neg (by simp), if_pos (by decide)]
  · rw [if_neg h1]
    by_cases hb : isBreak c
    · rw [if_pos hb]
      rw [List.map_cons, lineClean_nil, trimEmpties_cons_nil]
    · rw [if_neg hb]
      cases hP : pySplitlines t with
      | nil =>
        have ht : t = [] := pySplitlines_eq_nil_iff.mp hP
        subst ht
        simp only [List.map_cons, List.map_nil, lineClean_ws_singleton hc]
        rw [trimEmpties_singleton_nil]
        rfl
      | cons l ls =>
        simp only [List.map_cons, lineClean_cons_ws hc l]

theorem map_lineClean_appendLast {L : List (List Char)} (hL : L ≠ []) {c : Char}
    (hc : isWS c = true) :
    List.map lineClean (appendLast L c) = List.map lineClean L := by
  induction L with
  | nil => exact absurd rfl hL
  | cons l ms ih =>
    cases ms with
    | nil => simp [appendLast, lineClean_concat_ws hc]
    | cons m ms2 =>
      rw [appendLast_cons_of_ne l (by simp)]
      simp only [List.map_cons]
      rw [show List.map lineClean (appendLast (m :: ms2) c) =
        List.map lineClean (m :: ms2) from ih (by simp)]
      simp

theorem normKey_concat_ws {c : Char} (hc : isWS c = true) (s : List Char) :
    normKey (s ++ [c]) = normKey s := by
  rw [normKey, normKey, pySplitlines_append, splitAppendRHS]
  by_cases hE : s.isEmpty
  · rw [if_pos hE]
    have hs : s = [] := by simpa [List.isEmpty_iff] using hE
    subst hs
    by_cases hb : isBreak c
    · rw [if_pos hb]
      rw [show pySplitlines [] = [] from rfl]
      simp only [List.map_cons, List.map_nil, lineClean_nil]
      rw [trimEmpties_singleton_nil]
      rfl
    · rw [if_neg hb]
      rw [show pySplitlines [] = [] from rfl]
      simp only [List.map_cons, List.map_nil, lineClean_ws_singleton hc]
      rw [trimEmpties_singleton_nil]
      rfl
  · rw [if_neg hE]
    have hPne : pySplitlines s ≠ [] :=
      pySplitlines_ne_nil (by simpa [List.isEmpty_iff] using hE)
    by_cases hb : isBreak c
    · rw [if_pos hb]
      by_cases h2 : s.getLast? = some '\r' ∧ c = '\n'
      · rw [if_pos h2]
      · rw [if_neg h2]
        by_cases h3 : lastBreak s
        · rw [if_pos h3]
          rw [List.map_append, List.map_singleton, lineClean_nil, trimEmpties_concat_nil]
        · rw [if_neg h3]
    · rw [if_neg hb]
      by_cases h3 : lastBreak s
      · rw [if_pos h3]
        rw [List.map_append, List.map_singleton, lineClean_ws_singleton hc,
          trimEmpties_concat_nil]
      · rw [if_neg h3]
        rw [map_lineClean_appendLast hPne hc]

theorem normKey_pyLstrip (s : List Char) : normKey (pyLstrip s) = normKey s := by
  induction s with
  | nil => rfl
  | cons c t ih =>
    by_cases hc : isWS c
    · rw [pyLstrip_cons_ws hc, ih, normKey_cons_ws hc]
    · rw [pyLstrip_cons_not_ws (by simpa using hc)]

theorem normKey_pyRstrip (s : List Char) : normKey (pyRstrip s) = normKey s := by
  induction s using List.reverseRecOn with
  | nil => rfl
  | append_singleton t c ih =>
    by_cases hc : isWS c
    · rw [pyRstrip_concat_ws hc, ih, normKey_concat_ws hc]
    · have hr : pyRstrip (t ++ [c]) = t ++ [c] := by
        rw [pyRstrip, List.reverse_append]
        simp only [List.reverse_singleton, List.singleton_append, List.dropWhile_cons]
        rw [if_neg (by simpa using hc)]
        simp
      rw [hr]

/-- `_norm_for_dedupe` gives the same key for a block and its `strip()`. -/
theorem normForDedupe_pyStrip (s : List Char) :
    normForDedupe (pyStrip s) = normForDedupe s := by
  rw [normForDedupe_eq_key, normForDedupe_eq_key, pyStrip,
    normKey_pyRstrip, normKey_pyLstrip]

/-! ### Deduplication: invariants, idempotence, order preservation -/

theorem dedupeBlocksGo_invariants (B : List (List Char)) :
    ∀ (seen : List (List Char)),
      (∀ x ∈ dedupeBlocksGo seen B, normForDedupe x ∉ seen ∧ pyStrip x = x) ∧
      (dedupeBlocksGo seen B).Pairwise (fun x y => normForDedupe x ≠ normForDedupe y) := by
  induction B with
  | nil => intro seen; simp [dedupeBlocksGo]
  | cons b rest ih =>
    intro seen
    by_cases hmem : normForDedupe b ∈ seen
    · simpa [dedupeBlocksGo, hmem] using ih seen
    · rw [show dedupeBlocksGo seen (b :: rest) =
        pyStrip b :: dedupeBlocksGo (normForDedupe b :: seen) rest by
          simp [dedupeBlocksGo, hmem]]
      obtain ⟨ih1, ih2⟩ := ih (normForDedupe b :: seen)
      constructor
      · intro x hx
        rcases List.mem_cons.mp hx with rfl | hx
        · exact ⟨by rw [normForDedupe_pyStrip]; exact hmem, pyStrip_idem b⟩
        · obtain ⟨h1, h2⟩ := ih1 x hx
          exact ⟨fun hc => h1 (List.mem_cons_of_mem _ hc), h2⟩
      · rw [List.pairwise_cons]
        refine ⟨?_, ih2⟩
        intro y hy
        obtain ⟨h1, _⟩ := ih1 y hy
        rw [normForDedupe_pyStrip]
        intro hc
        exact h1 (by rw [← hc]; exact List.mem_cons_self _ _)

theorem dedupeBlocksGo_fixed (out : List (List Char)) :
    ∀ (seen : List (List Char)),
      (∀ x ∈ out, normForDedupe x ∉ seen ∧ pyStrip x = x) →
      out.Pairwise (fun x y => normForDedupe x ≠ normForDedupe y) →
      dedupeBlocksGo seen out = out := by
  induction out with
  | nil => intro seen _ _; rfl
  | cons x rest ih =>
    intro seen h1 h2
    obtain ⟨hx1, hx2⟩ := h1 x (List.mem_cons_self _ _)
    rw [List.pairwise_cons] at h2
    rw [show dedupeBlocksGo seen (x :: rest) =
      pyStrip x :: dedupeBlocksGo (normForDedupe x :: seen) rest by
        simp [dedupeBlocksGo, hx1]]
    rw [hx2]
    congr 1
    apply ih
    · intro y hy
      obtain ⟨hy1, hy2⟩ := h1 y (List.mem_cons_of_mem _ hy)
      refine ⟨?_, hy2⟩
      intro hc
      rcases List.mem_cons.mp hc with hc1 | hc2
      · exact h2.1 y hy hc1.symm
      · exact hy1 hc2
    · exact h2.2

theorem dedupeKeepOrderGo_invariants (B : List (List Char)) :
    ∀ (seen : List (List Char)),
      (∀ x ∈ dedupeKeepOrderGo seen B, x ∉ seen) ∧
      (dedupeKeepOrderGo seen B).Pairwise (fun x y => x ≠ y) := by
  induction B with
  | nil => intro seen; simp [dedupeKeepOrderGo]
  | cons b rest ih =>
    intro seen
    by_cases hmem : b ∈ seen
    · simpa [dedupeKeepOrderGo, hmem] using ih seen
    · rw [show dedupeKeepOrderGo seen (b :: rest) =
        b :: dedupeKeepOrderGo (b :: seen) rest by simp [dedupeKeepOrderGo, hmem]]
      obtain ⟨ih1, ih2⟩ := ih (b :: seen)
      constructor
      · intro x hx
        rcases List.mem_cons.mp hx with rfl | hx
        · exact hmem
        · exact fun hc => ih1 x hx (List.mem_cons_of_mem _ hc)
      · rw [List.pairwise_cons]
        refine ⟨?_, ih2⟩
        intro y hy hc
        exact ih1 y hy (by rw [← hc]; exact List.mem_cons_self _ _)

theorem dedupeKeepOrderGo_fixed (out : List (List Char)) :
    ∀ (seen : List (List Char)),
      (∀ x ∈ out, x ∉ seen) →
      out.Pairwise (fun x y => x ≠ y) →
      dedupeKeepOrderGo seen out = out := by
  induction out with
  | nil => intro seen _ _; rfl
  | cons x rest ih =>
    intro seen h1 h2
    rw [List.pairwise_cons] at h2
    rw [show dedupeKeepOrderGo seen (x :: rest) =
      x :: dedupeKeepOrderGo (x :: seen) rest by
        simp [dedupeKeepOrderGo, h1 x (List.mem_cons_self _ _)]]
    congr 1
    apply ih
    · intro y hy
      intro hc
      rcases List.mem_cons.mp hc with hc1 | hc2
      · exact h2.1 y hy hc1.symm
      · exact h1 y (List.mem_cons_of_mem _ hy) hc2
    · exact h2.2

theorem dedupeBlocksGo_eq_map_firstOcc (B : List (List Char)) :
    ∀ seen, dedupeBlocksGo seen B = (firstOccurrencesGo seen B).map pyStrip := by
  induction B with
  | nil => intro seen; rfl
  | cons b rest ih =>
    intro seen
    by_cases hmem : normForDedupe b ∈ seen
    · simp [dedupeBlocksGo, firstOccurrencesGo, hmem, ih]
    · simp [dedupeBlocksGo, firstOccurrencesGo, hmem, ih]

theorem firstOccurrencesGo_sublist (B : List (List Char)) :
    ∀ seen, (firstOccurrencesGo seen B).Sublist B := by
  induction B with
  | nil => intro seen; simp [firstOccurrencesGo]
  | cons b rest ih =>
    intro seen
    by_cases hmem : normForDedupe b ∈ seen
    · simp only [firstOccurrencesGo, hmem, if_pos]
      exact List.Sublist.cons b (ih seen)
    · simp only [firstOccurrencesGo, hmem, if_neg, not_false_iff]
      exact List.Sublist.cons₂ b (ih _)

theorem firstOccurrencesGo_nodup (B : List (List Char)) :
    ∀ seen,
      (∀ x ∈ firstOccurrencesGo seen B, normForDedupe x ∉ seen) ∧
      ((firstOccurrencesGo seen B).map normForDedupe).Nodup := by
  induction B with
  | nil => intro seen; simp [firstOccurrencesGo]
  | cons b rest ih =>
    intro seen
    by_cases hmem : normForDedupe b ∈ seen
    · simpa [firstOccurrencesGo, hmem] using ih seen
    · rw [show firstOccurrencesGo seen (b :: rest) =
        b :: firstOccurrencesGo (normForDedupe b :: seen) rest by
          simp [firstOccurrencesGo, hmem]]
      obtain ⟨ih1, ih2⟩ := ih (normForDedupe b :: seen)
      constructor
      · intro x hx
        rcases List.mem_cons.mp hx with rfl | hx
        · exact hmem
        · exact fun hc => ih1 x hx (List.mem_cons_of_mem _ hc)
      · rw [List.map_cons, List.nodup_cons]
        refine ⟨?_, ih2⟩
        intro hc
        obtain ⟨y, hy, hyn⟩ := List.mem_map.mp hc
        exact ih1 y hy (by rw [hyn]; exact List.mem_cons_self _ _)

theorem firstOccurrencesGo_complete (B : List (List Char)) :
    ∀ seen, ∀ b ∈ B, normForDedupe b ∈ seen ∨
      normForDedupe b ∈ (firstOccurrencesGo seen B).map normForDedupe := by
  induction B with
  | nil => intro seen b hb; simp at hb
  | cons x rest ih =>
    intro seen b hb
    by_cases hmem : normForDedupe x ∈ seen
    · rw [show firstOccurrencesGo seen (x :: rest) = firstOccurrencesGo seen rest by
        simp [firstOccurrencesGo, hmem]]
      rcases List.mem_cons.mp hb with rfl | hb
      · exact Or.inl hmem
      · exact ih seen b hb
    · rw [show firstOccurrencesGo seen (x :: rest) =
        x :: firstOccurrencesGo (normForDedupe x :: seen) rest by
          simp [firstOccurrencesGo, hmem]]
      rcases List.mem_cons.mp hb with rfl | hb
      · exact Or.inr (by simp)
      · rcases ih (normForDedupe x :: seen) b hb with h | h
        · rcases List.mem_cons.mp h with h1 | h2
          · exact Or.inr (by simp [h1])
          · exact Or.inl h2
        · exact Or.inr (by rw [List.map_cons]; exact List.mem_cons_of_mem _ h)

/-! ### Claim theorems: C4 and C5 -/

/-- C4: for every sequence of text blocks `B`, applying the block-deduplication
function twice gives the same result as applying it once — both for
`_dedupe_list_of_blocks` (`common/digest_export.py`) and for
`dedupe_keep_order` (`scripts/build_digest_data.py`):
`dedup(dedup(B)) == dedup(B)`. -/
theorem C4_dedup_idempotent :
    (∀ B : List (List Char),
      dedupeListOfBlocks (dedupeListOfBlocks B) = dedupeListOfBlocks B) ∧
    (∀ B : List (List Char),
      dedupeKeepOrder (dedupeKeepOrder B) = dedupeKeepOrder B) := by
  constructor
  · intro B
    obtain ⟨h1, h2⟩ := dedupeBlocksGo_invariants B []
    exact dedupeBlocksGo_fixed (dedupeBlocksGo [] B) [] h1 h2
  · intro B
    obtain ⟨h1, h2⟩ := dedupeKeepOrderGo_invariants B []
    exact dedupeKeepOrderGo_fixed (dedupeKeepOrderGo [] B) [] h1 h2

/-- C5 counterexample: `_dedupe_list_of_blocks` does not keep the first
occurrence verbatim — the kept block is passed through `str.strip()`, so for
the single-element input `[" a"]` the output is `["a"]`, not `[" a"]`. -/
theorem C5_counterexample :
    dedupeListOfBlocks [[' ', 'a']] = [['a']] ∧
    ([' ', 'a'] : List Char) ≠ ['a'] := by
  constructor
  · decide
  · decide

/-- C5 (amended): `_dedupe_list_of_blocks B` equals the first occurrence, in
first-seen order, of each distinct normalized (trimmed, whitespace-collapsed,
lowercased) value of `B` — except that each kept block is passed through
`str.strip()`.  The kept occurrences form a subsequence of `B` (order
preserved), their normalized keys are pairwise distinct, and every block of
`B` has its normalized key represented. -/
theorem C5_dedup_first_occurrences (B : List (List Char)) :
    dedupeListOfBlocks B = (firstOccurrences B).map pyStrip ∧
    (firstOccurrences B).Sublist B ∧
    ((firstOccurrences B).map normForDedupe).Nodup ∧
    ∀ b ∈ B, normForDedupe b ∈ (firstOccurrences B).map normForDedupe := by
  refine ⟨dedupeBlocksGo_eq_map_firstOcc B [], firstOccurrencesGo_sublist B [],
    (firstOccurrencesGo_nodup B []).2, ?_⟩
  intro b hb
  rcases firstOccurrencesGo_complete B [] b hb with h | h
  · simp at h
  · exact h

/-- Witness for C5: at the concrete input `[" a", "A"]` (same normalized key
"a"), the amended statement holds and the membership hypothesis is
discharged at `b = "A"`. -/
theorem C5_dedup_first_occurrences_witness :
    normForDedupe ['A'] ∈
      (firstOccurrences [[' ', 'a'], ['A']]).map normForDedupe ∧
    dedupeListOfBlocks [[' ', 'a'], ['A']] =
      (firstOccurrences [[' ', 'a'], ['A']]).map pyStrip :=
  ⟨(C5_dedup_first_occurrences [[' ', 'a'], ['A']]).2.2.2 ['A'] (by decide),
   (C5_dedup_first_occurrences [[' ', 'a'], ['A']]).1⟩

/-! ### `chunk_text`: conservation, bounds, non-emptiness -/

theorem pyRfindNl_some {text : List Char} {start stop i : Nat}
    (h : pyRfindNl text start stop = some i) : start ≤ i ∧ i < stop := by
  rw [pyRfindNl] at h
  have hm := List.mem_of_mem_getLast? h
  rw [List.mem_filter] at hm
  have := of_decide_eq_true hm.2
  exact ⟨this.1, this.2.1⟩

theorem chunkNl_bounds {text : List Char} {limit start : Nat}
    (hlim : 1 ≤ limit) (hlt : start < text.length) :
    start < chunkNl text limit start ∧
    chunkNl text limit start ≤ min (start + limit) text.length := by
  rw [chunkNl]
  cases hfind : pyRfindNl text start (min (start + limit) text.length) with
  | none =>
    simp only []
    omega
  | some i =>
    obtain ⟨h1, h2⟩ := pyRfindNl_some hfind
    simp only []
    by_cases hle : i ≤ start
    · rw [if_pos hle]; omega
    · rw [if_neg hle]; omega

theorem chunkLoop_spec (text : List Char) (limit : Nat) (hlim : 1 ≤ limit) :
    ∀ (fuel start : Nat), text.length - start ≤ fuel →
      (chunkLoop text limit start fuel).flatten = text.drop start ∧
      (∀ ch ∈ chunkLoop text limit start fuel, ch ≠ [] ∧ ch.length ≤ limit) := by
  intro fuel
  induction fuel with
  | zero =>
    intro start h
    have hge : text.length ≤ start := by omega
    constructor
    · simp [chunkLoop, List.drop_eq_nil_of_le hge]
    · intro ch hch; simp [chunkLoop] at hch
  | succ fuel ih =>
    intro start hfs
    by_cases hlt : start < text.length
    · obtain ⟨hb1, hb2⟩ := chunkNl_bounds hlim hlt
      have hnl_le : chunkNl text limit start ≤ text.length := by omega
      have hrec := ih (chunkNl text limit start) (by omega)
      rw [show chunkLoop text limit start (fuel + 1) =
        (text.drop start).take (chunkNl text limit start - start) ::
          chunkLoop text limit (chunkNl text limit start) fuel by
            simp [chunkLoop, hlt]]
      constructor
      · rw [List.flatten_cons, hrec.1]
        rw [show text.drop (chunkNl text limit start) =
          (text.drop start).drop (chunkNl text limit start - start) by
            rw [List.drop_drop]
            congr 1
            omega]
        exact List.take_append_drop _ _
      · intro ch hch
        rcases List.mem_cons.mp hch with rfl | hch
        · have hlen : ((text.drop start).take (chunkNl text limit start - start)).length =
              chunkNl text limit start - start := by
            rw [List.length_take, List.length_drop]
            omega
          constructor
          · intro hc
            rw [hc] at hlen
            simp at hlen
            omega
          · rw [hlen]; omega
        · exact hrec.2 ch hch
    · constructor
      · have hge : text.length ≤ start := by omega
        simp [chunkLoop, hlt, List.drop_eq_nil_of_le hge]
      · intro ch hch
        simp [chunkLoop, hlt] at hch

/-! ### Claim theorems: C10 -/

/-- C10 counterexample: for the empty text the generator yields a single
empty chunk, so "all chunks are non-empty" fails as stated. -/
theorem C10_counterexample :
    chunkText [] 1 = [[]] ∧ ([] : List Char) ∈ chunkText [] 1 := by
  constructor
  · decide
  · decide

/-- C10 (amended): for every text and chunk size `limit >= 1`, the chunks of
`chunk_text(text, limit)` concatenate exactly to `text` (nothing lost or
duplicated; a newline chosen as split point starts the following chunk) and
each chunk has length at most `limit`; moreover every chunk is non-empty
provided `text` itself is non-empty (an empty text yields one empty chunk). -/
theorem C10_chunkText_spec (text : List Char) (limit : Nat) (hlim : 1 ≤ limit) :
    (chunkText text limit).flatten = text ∧
    (∀ ch ∈ chunkText text limit, ch.length ≤ limit) ∧
    (text ≠ [] → ∀ ch ∈ chunkText text limit, ch ≠ []) := by
  rw [chunkText]
  by_cases hshort : text.length ≤ limit
  · rw [if_pos hshort]
    refine ⟨by simp, ?_, ?_⟩
    · intro ch hch
      rcases List.mem_singleton.mp hch with rfl
      exact hshort
    · intro hne ch hch
      rcases List.mem_singleton.mp hch with rfl
      exact hne
  · rw [if_neg hshort]
    obtain ⟨h1, h2⟩ := chunkLoop_spec text limit hlim (text.length + 1) 0 (by omega)
    refine ⟨by simpa using h1, ?_, ?_⟩
    · intro ch hch
      exact (h2 ch hch).2
    · intro _ ch hch
      exact (h2 ch hch).1

/-- Witness for C10: the amended statement instantiated at
`text = "ab\ncd"`, `limit = 3`. -/
theorem C10_chunkText_spec_witness :
    (chunkText ['a', 'b', '\n', 'c', 'd'] 3).flatten = ['a', 'b', '\n', 'c', 'd'] ∧
    (∀ ch ∈ chunkText ['a', 'b', '\n', 'c', 'd'] 3, ch.length ≤ 3) ∧
    (['a', 'b', '\n', 'c', 'd'] ≠ ([] : List Char) →
      ∀ ch ∈ chunkText ['a', 'b', '\n', 'c', 'd'] 3, ch ≠ []) :=
  C10_chunkText_spec ['a', 'b', '\n', 'c', 'd'] 3 (by decide)

/-! ### Aggregation (C3) and key observation (C2) -/

theorem digestTotals_eq_sums (today : List Char) (vs : List JVal) :
    digestTotals today vs =
      ⟨(vs.map (fun v => (countMetricsPerVendor today v).activos)).sum,
       (vs.map (fun v => (countMetricsPerVendor today v).resueltosHoy)).sum,
       (vs.map (fun v => (countMetricsPerVendor today v).nuevosHoy)).sum,
       (vs.map (fun v => (countMetricsPerVendor today v).mantsHoy)).sum⟩ := by
  have key : ∀ (vs : List JVal) (acc : Metrics),
      vs.foldl
        (fun acc v =>
          let m := countMetricsPerVendor today v
          (⟨acc.activos + m.activos, acc.resueltosHoy + m.resueltosHoy,
            acc.nuevosHoy + m.nuevosHoy, acc.mantsHoy + m.mantsHoy⟩ : Metrics))
        acc =
        ⟨acc.activos + (vs.map (fun v => (countMetricsPerVendor today v).activos)).sum,
         acc.resueltosHoy +
           (vs.map (fun v => (countMetricsPerVendor today v).resueltosHoy)).sum,
         acc.nuevosHoy +
           (vs.map (fun v => (countMetricsPerVendor today v).nuevosHoy)).sum,
         acc.mantsHoy +
           (vs.map (fun v => (countMetricsPerVendor today v).mantsHoy)).sum⟩ := by
    intro vs
    induction vs with
    | nil => intro acc; cases acc; simp
    | cons v rest ih =>
      intro acc
      simp only [List.foldl_cons, List.map_cons, List.sum_cons]
      rw [ih]
      simp only []
      congr 1 <;> omega
  rw [digestTotals, key]
  simp

theorem countP_eq_of_map_eq {vs ws : List JVal} {f : JVal → Bool}
    (h : vs.map f = ws.map f) : vs.countP f = ws.countP f := by
  have h1 : (vs.map f).countP (fun b => b) = (ws.map f).countP (fun b => b) := by
    rw [h]
  rwa [List.countP_map, List.countP_map] at h1

/-- The claim's key-observation characterization fails on the code:
`build_obs_clave` never scans the vendor text for critical keywords and never
names affected vendors.  With one vendor (`vendorC`) carrying one active
incident (total active = 1 > 0), the observation is the fixed
"Se observa actividad en 1 de 1 fabricantes" sentence, which neither
mentions the vendor name nor has the "N incidents across M vendors" form nor
any critical keyword. -/
theorem C2_counterexample :
    (digestTotals (S "2025-10-12") [vendorC]).activos = 1 ∧
    buildObsClave [vendorC] =
      S "Se observa actividad en 1 de 1 fabricantes (ver detalle por fabricante)." ∧
    containsSub (S "imperva") (buildObsClave [vendorC]) = false ∧
    containsSub (S "incidents across") (buildObsClave [vendorC]) = false ∧
    containsSub (S "critical") (buildObsClave [vendorC]) = false := by
  refine ⟨by decide, by decide, by decide, by decide, by decide⟩

/-- C2 (amended): the key observation depends only on the vendors'
`overall_ok is True` flags — not on incident text or keywords — and is
always one of three fixed sentences: the no-data sentence, the all-operational
sentence, or "Se observa actividad en N de M fabricantes (ver detalle por
fabricante)." with `N` the number of vendors not reporting `overall_ok ==
true` (and `N > 0`). -/
theorem C2_obs_clave_flags_only :
    (∀ vs ws : List JVal, vs.map overallOkFlag = ws.map overallOkFlag →
      buildObsClave vs = buildObsClave ws) ∧
    (∀ vs : List JVal,
      buildObsClave vs = S "No hay datos de fabricantes para este periodo." ∨
      buildObsClave vs =
        S "Todos los fabricantes reportan estado operacional sin incidentes hoy." ∨
      (0 < vs.length - vs.countP (fun v => overallOkFlag v) ∧
        buildObsClave vs =
          S "Se observa actividad en " ++
            natStr (vs.length - vs.countP (fun v => overallOkFlag v)) ++
            S " de " ++ natStr vs.length ++
            S " fabricantes (ver detalle por fabricante).")) := by
  constructor
  · intro vs ws hmap
    have hlen : vs.length = ws.length := by
      have := congrArg List.length hmap
      simpa using this
    have hcount : vs.countP (fun v => overallOkFlag v) =
        ws.countP (fun v => overallOkFlag v) := countP_eq_of_map_eq hmap
    rw [buildObsClave, buildObsClave, hlen, hcount]
    by_cases he : ws.isEmpty
    · have : vs.isEmpty := by
        rw [List.isEmpty_iff] at he ⊢
        rw [← List.length_eq_zero, hlen, he]
        simp
      rw [if_pos this, if_pos he]
    · have : ¬vs.isEmpty := by
        rw [List.isEmpty_iff] at he ⊢
        intro hc
        rw [hc] at hlen
        exact he (List.length_eq_zero.mp hlen.symm)
      rw [if_neg this, if_neg he]
  · intro vs
    rw [buildObsClave]
    by_cases he : vs.isEmpty
    · rw [if_pos he]; exact Or.inl rfl
    · rw [if_neg he]
      by_cases hok : vs.countP (fun v => overallOkFlag v) = vs.length
      · rw [if_pos hok]; exact Or.inr (Or.inl rfl)
      · rw [if_neg hok]
        have hle : vs.countP (fun v => overallOkFlag v) ≤ vs.length :=
          List.countP_le_length _
        have hpos : 0 < vs.length - vs.countP (fun v => overallOkFlag v) := by
          omega
        rw [if_neg (by omega)]
        exact Or.inr (Or.inr ⟨hpos, rfl⟩)

/-- Witness for C2 (amended): flag-only dependence applied at two concrete
vendor lists with equal flag sequences but different incident text, and the
shape disjunction at a concrete list. -/
theorem C2_obs_clave_flags_only_witness :
    buildObsClave [vendorA, vendorB] = buildObsClave [vendorC, vendorB] ∧
    (buildObsClave [vendorC] = S "No hay datos de fabricantes para este periodo." ∨
      buildObsClave [vendorC] =
        S "Todos los fabricantes reportan estado operacional sin incidentes hoy." ∨
      (0 < [vendorC].length - [vendorC].countP (fun v => overallOkFlag v) ∧
        buildObsClave [vendorC] =
          S "Se observa actividad en " ++
            natStr ([vendorC].length - [vendorC].countP (fun v => overallOkFlag v)) ++
            S " de " ++ natStr [vendorC].length ++
            S " fabricantes (ver detalle por fabricante).")) :=
  ⟨C2_obs_clave_flags_only.1 [vendorA, vendorB] [vendorC, vendorB] (by decide),
   C2_obs_clave_flags_only.2 [vendorC]⟩

/-- C3: every digest aggregate count is the sum, over all vendors, of that
vendor's per-vendor metric (`count_metrics_per_vendor`) — the accumulation
loop of `main` only sums.  In particular, for the vendors
`[vendorA, vendorB, vendorC]` with per-record active counts `[2, 0, 1]`, the
aggregate active count is `3`. -/
theorem C3_totals_are_sums :
    (∀ (today : List Char) (vs : List JVal),
      (digestTotals today vs).activos =
        (vs.map (fun v => (countMetricsPerVendor today v).activos)).sum ∧
      (digestTotals today vs).resueltosHoy =
        (vs.map (fun v => (countMetricsPerVendor today v).resueltosHoy)).sum ∧
      (digestTotals today vs).nuevosHoy =
        (vs.map (fun v => (countMetricsPerVendor today v).nuevosHoy)).sum ∧
      (digestTotals today vs).mantsHoy =
        (vs.map (fun v => (countMetricsPerVendor today v).mantsHoy)).sum) ∧
    (countMetricsPerVendor (S "2025-10-12") vendorA).activos = 2 ∧
    (countMetricsPerVendor (S "2025-10-12") vendorB).activos = 0 ∧
    (countMetricsPerVendor (S "2025-10-12") vendorC).activos = 1 ∧
    (digestTotals (S "2025-10-12") [vendorA, vendorB, vendorC]).activos = 3 := by
  refine ⟨?_, by decide, by decide, by decide, by decide⟩
  intro today vs
  rw [digestTotals_eq_sums]
  exact ⟨rfl, rfl, rfl, rfl⟩

/-! ### C1: the no-incident invariant -/

/-- C1 counterexample: with an empty summary, `build_statuspage_result`
reports `overall_ok = True` but its `incidents_lines` is
`["No incidents reported today"]` — without the claimed trailing period —
and the Qualys `collect` with no items reports `overall_ok = True` with the
two fixed `Histórico` lines, which do not contain the claimed singleton at
all. -/
theorem C1_counterexample :
    ((buildStatuspageResult (S "Aruba") ⟨[], []⟩ (2025, 10, 12)
        (S "2025-10-12 06:00")).overallOk = some true ∧
     (buildStatuspageResult (S "Aruba") ⟨[], []⟩ (2025, 10, 12)
        (S "2025-10-12 06:00")).incidentsLines ≠
       [S "No incidents reported today."]) ∧
    ((qualysCollect [] (S "2025-10-12 06:00")).overallOk = some true ∧
     S "No incidents reported today." ∉
       (qualysCollect [] (S "2025-10-12 06:00")).incidentsLines) := by
  decide

/-- C1 (amended): whenever `overall_ok` is `True`, `incidents_lines` is the
fixed no-incident text of the respective collector: for the Statuspage
strategy the singleton `["No incidents reported today"]` (no period), for
the Qualys collector the two-line `Histórico` block. -/
theorem C1_overall_ok_no_incident_literals :
    (∀ (name : List Char) (su : SPSummary) (today : Nat × Nat × Nat)
        (now : List Char),
      (buildStatuspageResult name su today now).overallOk = some true →
      (buildStatuspageResult name su today now).incidentsLines =
        [S "No incidents reported today"]) ∧
    (∀ (items : List QItem) (now : List Char),
      (qualysCollect items now).overallOk = some true →
      (qualysCollect items now).incidentsLines =
        [S "Histórico (meses visibles en la página)",
         S "- No hay incidencias no programadas en los meses mostrados."]) := by
  constructor
  · intro name su today now h
    simp only [buildStatuspageResult] at h ⊢
    by_cases hc : (parseComponents su.components).isEmpty
    · simp [hc] at h
      simpa using h
    · simp [hc] at h
      simpa using h.1
  · intro items now h
    simp only [qualysCollect] at h ⊢
    have hl : items.length = 0 := by simpa using h
    have hi : items = [] := List.eq_nil_of_length_eq_zero hl
    subst hi
    simp [formatIncidentsLinesForDigest]

theorem C1_overall_ok_no_incident_literals_witness :
    ((buildStatuspageResult (S "V")
        ⟨[⟨S "c1", S "API", S "operational", false, []⟩], []⟩
        (2025, 10, 12) []).overallOk = some true ∧
     (buildStatuspageResult (S "V")
        ⟨[⟨S "c1", S "API", S "operational", false, []⟩], []⟩
        (2025, 10, 12) []).incidentsLines = [S "No incidents reported today"]) ∧
    ((qualysCollect [] []).overallOk = some true ∧
     (qualysCollect [] []).incidentsLines =
       [S "Histórico (meses visibles en la página)",
        S "- No hay incidencias no programadas en los meses mostrados."]) :=
  ⟨⟨by decide, C1_overall_ok_no_incident_literals.1 _ _ _ _ (by decide)⟩,
   ⟨by decide, C1_overall_ok_no_incident_literals.2 [] [] (by decide)⟩⟩

/-! ### C7: date-range parsing determinism -/

/-- C7: parsing `"Jun 13, 09:18 - Jun 14, 11:18 PDT"` with year context 2025
deterministically yields start `2025-06-13T16:18:00Z` and end
`2025-06-14T18:18:00Z`, via the fixed offset `PDT = -420` minutes. -/
theorem C7_parse_range_deterministic :
    parseDateRange (S "Jun 13, 09:18 - Jun 14, 11:18 PDT") 2025 =
      (some ⟨2025, 6, 13, 16, 18, 0, some 0⟩,
       some ⟨2025, 6, 14, 18, 18, 0, some 0⟩) ∧
    ((parseDateRange (S "Jun 13, 09:18 - Jun 14, 11:18 PDT") 2025).1.map isoZ =
      some (S "2025-06-13T16:18:00Z") ∧
     (parseDateRange (S "Jun 13, 09:18 - Jun 14, 11:18 PDT") 2025).2.map isoZ =
      some (S "2025-06-14T18:18:00Z")) ∧
    tzLookup (S "PDT") = some (-420) := by
  decide

/-! ### C8: the no-incident zero-override of `_build_from_capture` -/

/-- C8: for every vendor block that matches `NO_INCIDENTS_RE` and contains
no `ACTIVE_TOKENS_RE` token, the capture counts have `active = 0` and
`resolved_today = 0`, regardless of what the individual lines matched. -/
theorem C8_no_incident_zero_override (vendorBlock : List Char)
    (hno : noIncidentsSearch vendorBlock = true)
    (hact : activeSearch vendorBlock = false) :
    (buildCountsFromBlock vendorBlock).1 = 0 ∧
    (buildCountsFromBlock vendorBlock).2.1 = 0 := by
  simp only [buildCountsFromBlock, hno, hact]
  simp

theorem C8_no_incident_zero_override_witness :
    noIncidentsSearch (S "Incidents today — 0\nYesterday resolved items: 3") = true ∧
    activeSearch (S "Incidents today — 0\nYesterday resolved items: 3") = false ∧
    (buildCountsFromBlock
      (S "Incidents today — 0\nYesterday resolved items: 3")).1 = 0 ∧
    (buildCountsFromBlock
      (S "Incidents today — 0\nYesterday resolved items: 3")).2.1 = 0 :=
  ⟨by decide, by decide,
   (C8_no_incident_zero_override _ (by decide) (by decide)).1,
   (C8_no_incident_zero_override _ (by decide) (by decide)).2⟩

/-! ### C9: lenient JSON repair and per-array skipping -/

/-- A `sspDataInfo` array text with one trailing comma before `]`. -/
def trailingCommaArr : List Char :=
  S "[\x7b\"productEnName\": \"Trend Vision One\", \"id\": \"I1\", \"status\": 770060002, \"subject\": \"DB%20latency\", \"hisDate\": \"2025-10-12T03:00:00Z\"\x7d,]"

set_option maxRecDepth 4000 in
/-- C9: strict parsing of the trailing-comma array fails, the comma-stripping
repair makes it parse, the parse yields exactly one record for the product,
and an array that still fails after repair is skipped: the records are those
of the remaining arrays. -/
theorem C9_lenient_repair_and_skip :
    (jsonParse trailingCommaArr).isNone = true ∧
    (parseArrayLenient trailingCommaArr).isSome = true ∧
    (parseSspRecords (S "Trend Vision One") [trailingCommaArr]).length = 1 ∧
    (∀ (bad : List Char) (rest : List (List Char)) (product : List Char),
      (jsonParse bad).isNone = true → (jsonParse (repairJson bad)).isNone = true →
      parseSspRecords product (bad :: rest) = parseSspRecords product rest) := by
  refine ⟨by decide, by decide, by decide, ?_⟩
  intro bad rest product h1 h2
  have h1n : jsonParse bad = none := Option.isNone_iff_eq_none.mp h1
  have h2n : jsonParse (repairJson bad) = none := Option.isNone_iff_eq_none.mp h2
  simp [parseSspRecords, parseArrayLenient, h1n, h2n]

set_option maxRecDepth 4000 in
theorem C9_lenient_repair_and_skip_witness :
    (jsonParse (S "[\x7b")).isNone = true ∧
    (jsonParse (repairJson (S "[\x7b"))).isNone = true ∧
    parseSspRecords (S "Trend Vision One") [S "[\x7b", trailingCommaArr] =
      parseSspRecords (S "Trend Vision One") [trailingCommaArr] :=
  ⟨by decide, by decide,
   C9_lenient_repair_and_skip.2.2.2 (S "[\x7b") [trailingCommaArr]
     (S "Trend Vision One") (by decide) (by decide)⟩

/-! ### C6 infrastructure: generic facts about the substitution scanner -/

theorem subScanFuel_nil (try_ : List Char → Option (List Char × List Char))
    (fuel : Nat) : subScanFuel try_ fuel [] = [] := by
  cases fuel <;> rfl

theorem suffix_append_cases {t p q : List Char} (h : t <:+ p ++ q) :
    t <:+ q ∨ ∃ t1, t1 <:+ p ∧ t1 ≠ [] ∧ t = t1 ++ q := by
  induction p with
  | nil => left; simpa using h
  | cons c p ih =>
    rw [List.cons_append, List.suffix_cons_iff] at h
    rcases h with h | h
    · right
      exact ⟨c :: p, List.suffix_refl _, by simp, by simpa using h⟩
    · rcases ih h with h1 | ⟨t1, hs, hne, he⟩
      · left; exact h1
      · right; exact ⟨t1, hs.trans (List.suffix_cons c p), hne, he⟩

theorem passThru_of_trig {try_ : List Char → Option (List Char × List Char)}
    {trig : Char → Bool} (ht : HeadTrig try_ trig) (p : List Char)
    (hp : ∀ c ∈ p, trig c = false) : PassThru try_ p := by
  intro t rest ht0 hsuf
  match t, ht0 with
  | c :: t2, _ =>
    have hc : c ∈ p := hsuf.subset (by simp)
    exact ht c (t2 ++ rest) (hp c hc)

theorem passThru_append {try_ : List Char → Option (List Char × List Char)}
    {p q : List Char} (h1 : PassThru try_ p) (h2 : PassThru try_ q) :
    PassThru try_ (p ++ q) := by
  intro t rest ht0 hsuf
  rcases suffix_append_cases hsuf with h | ⟨t1, hs, hne, he⟩
  · exact h2 t rest ht0 h
  · subst he
    rw [List.append_assoc]
    exact h1 t1 (q ++ rest) hne hs

theorem passThru_cons_lit {try_ : List Char → Option (List Char × List Char)}
    {trig : Char → Bool} (ht : HeadTrig try_ trig) (c : Char) (R : List Char)
    (hR : ∀ x ∈ R, trig x = false)
    (hc : ∀ rest, try_ (c :: (R ++ rest)) = none) :
    PassThru try_ (c :: R) := by
  intro t rest ht0 hsuf
  rcases List.suffix_cons_iff.mp hsuf with h | h
  · subst h
    simpa using hc rest
  · exact passThru_of_trig ht R hR t rest ht0 h

theorem subScanFuel_passThru_prefix
    (try_ : List Char → Option (List Char × List Char)) :
    ∀ (p : List Char) (fuel : Nat) (r : List Char), PassThru try_ p →
    subScanFuel try_ (p.length + fuel) (p ++ r) = p ++ subScanFuel try_ fuel r := by
  intro p
  induction p with
  | nil => intro fuel r _; simp
  | cons c p ih =>
    intro fuel r hp
    have hstep : try_ (c :: (p ++ r)) = none := by
      have := hp (c :: p) r (by simp) (List.suffix_refl _)
      simpa using this
    have hlen : (c :: p).length + fuel = (p.length + fuel) + 1 := by
      simp [List.length_cons]
      omega
    rw [hlen]
    show subScanFuel try_ ((p.length + fuel) + 1) (c :: (p ++ r)) = _
    simp only [subScanFuel, hstep]
    rw [ih fuel r (fun t rest h1 h2 => hp t rest h1 (h2.trans (List.suffix_cons c p)))]
    simp

theorem subScan_of_passThru {try_ : List Char → Option (List Char × List Char)}
    {s : List Char} (h : PassThru try_ s) : subScan try_ s = s := by
  have h2 := subScanFuel_passThru_prefix try_ s 0 [] h
  simp only [List.append_nil, Nat.add_zero, subScanFuel_nil] at h2
  simpa [subScan] using h2

theorem subScan_match2 (try_ : List Char → Option (List Char × List Char))
    {p X rep rest : List Char}
    (hp : PassThru try_ p) (hrest : PassThru try_ rest)
    (hm : try_ X = some (rep, rest)) (hlen : rest.length < X.length) :
    subScan try_ (p ++ X) = p ++ (rep ++ rest) := by
  obtain ⟨x0, X2, hX⟩ : ∃ x0 X2, X = x0 :: X2 := by
    cases X with
    | nil => simp at hlen
    | cons a b => exact ⟨a, b, rfl⟩
  subst hX
  rw [subScan]
  have hl : (p ++ x0 :: X2).length = p.length + (X2.length + 1) := by simp
  rw [hl, subScanFuel_passThru_prefix try_ p (X2.length + 1) (x0 :: X2) hp]
  simp only [subScanFuel, hm]
  obtain ⟨k, hk⟩ : ∃ k, X2.length = rest.length + k := by
    refine ⟨X2.length - rest.length, ?_⟩
    simp at hlen
    omega
  have hfin : subScanFuel try_ (rest.length + k) rest = rest := by
    have h3 := subScanFuel_passThru_prefix try_ rest k [] hrest
    simpa [subScanFuel_nil] using h3
  rw [hk, hfin]

/-! ### C6 infrastructure: the matchers on the clean alphabet -/

theorem cleanC_props {c : Char} (h : cleanC c = true) :
    c ≠ '<' ∧ c ≠ '>' ∧ c ≠ '&' ∧ c ≠ '"' ∧ isWS c = false := by
  simp [cleanC] at h
  exact ⟨h.1.1.1.1, h.1.1.1.2, h.1.1.2, h.1.2, h.2⟩

theorem headTrig_brTry : HeadTrig brTry (fun c => c == '<') := by
  intro c rest h
  have hc : c ≠ '<' := by simpa using h
  match rest with
  | [] => simp [brTry, hc]
  | [b] => simp [brTry, hc]
  | b :: r :: rest2 => simp [brTry, hc]

theorem headTrig_tagNlTry : HeadTrig tagNlTry (fun c => c == '<') := by
  intro c rest h
  have hc : c ≠ '<' := by simpa using h
  simp [tagNlTry, hc]

theorem headTrig_liOpenTry : HeadTrig liOpenTry (fun c => c == '<') := by
  intro c rest h
  have hc : c ≠ '<' := by simpa using h
  match rest with
  | [] => simp [liOpenTry, hc]
  | [b] => simp [liOpenTry, hc]
  | b :: r :: rest2 => simp [liOpenTry, hc]

theorem headTrig_liCloseTry : HeadTrig liCloseTry (fun c => c == '<') := by
  intro c rest h
  have hc : c ≠ '<' := by simpa using h
  match rest with
  | [] => simp [liCloseTry, hc]
  | [b] => simp [liCloseTry, hc]
  | [b, r] => simp [liCloseTry, hc]
  | b :: r :: x :: rest2 => simp [liCloseTry, hc]

theorem headTrig_aTagTry : HeadTrig aTagTry (fun c => c == '<') := by
  intro c rest h
  have hc : c ≠ '<' := by simpa using h
  match rest with
  | [] => simp [aTagTry, hc]
  | b :: rest2 => simp [aTagTry, hc]

theorem headTrig_tagStripTry : HeadTrig tagStripTry (fun c => c == '<') := by
  intro c rest h
  have hc : c ≠ '<' := by simpa using h
  simp [tagStripTry, hc]

theorem headTrig_entityTry : HeadTrig entityTry (fun c => c == '&') := by
  intro c rest h
  have hc : c ≠ '&' := by simpa using h
  match rest with
  | [] => simp [entityTry, hc]
  | b :: rest2 => simp [entityTry, hc]

theorem headTrig_nl3Try : HeadTrig nl3Try (fun c => c == '\n') := by
  intro c rest h
  have hc : c ≠ '\n' := by simpa using h
  match rest with
  | [] => simp [nl3Try, hc]
  | [b] => simp [nl3Try, hc]
  | b :: r :: rest2 => simp [nl3Try, hc]

theorem brTry_lt_a (rest : List Char) : brTry ('<' :: 'a' :: rest) = none := by
  cases rest <;> rfl

theorem brTry_lt_slash (rest : List Char) : brTry ('<' :: '/' :: rest) = none := by
  cases rest <;> rfl

theorem tagNlTry_lt_a (rest : List Char) : tagNlTry ('<' :: 'a' :: rest) = none := by
  cases rest <;> rfl

theorem tagNlTry_lt_slash_a (rest : List Char) :
    tagNlTry ('<' :: '/' :: 'a' :: rest) = none := by
  cases rest <;> rfl

theorem liOpenTry_lt_a (rest : List Char) : liOpenTry ('<' :: 'a' :: rest) = none := by
  cases rest <;> rfl

theorem liOpenTry_lt_slash (rest : List Char) :
    liOpenTry ('<' :: '/' :: rest) = none := by
  cases rest <;> rfl

theorem liCloseTry_lt_a (rest : List Char) : liCloseTry ('<' :: 'a' :: rest) = none := by
  cases rest <;> rfl

theorem liCloseTry_lt_slash_a (rest : List Char) :
    liCloseTry ('<' :: '/' :: 'a' :: rest) = none := by
  cases rest <;> rfl

theorem takeWhile_append_stop (p : Char → Bool) {xs : List Char}
    (hxs : ∀ c ∈ xs, p c = true) (y : Char) (hy : p y = false) (r : List Char) :
    (xs ++ y :: r).takeWhile p = xs ∧ (xs ++ y :: r).dropWhile p = y :: r := by
  induction xs with
  | nil => simp [List.takeWhile_cons, List.dropWhile_cons, hy]
  | cons c xs ih =>
    have hc : p c = true := hxs c (by simp)
    have ih2 := ih (fun d hd => hxs d (by simp [hd]))
    simp [List.takeWhile_cons, List.dropWhile_cons, hc, ih2.1, ih2.2]

theorem pyStrip_eq_self_of_nonWS {l : List Char} (h : ∀ c ∈ l, isWS c = false) :
    pyStrip l = l := by
  match l with
  | [] => rfl
  | c :: rest =>
    have hgood : GoodL (c :: rest) := by
      constructor
      · intro d hd
        exact h d (by simp_all)
      · intro d hd
        exact h d (List.mem_of_mem_getLast? hd)
    rw [pyStrip, pyLstrip_cons_not_ws (h c (by simp)), pyRstrip_eq_self_of_good hgood]

theorem stripTagsOnly_clean {T : List Char} (hT : ∀ c ∈ T, (c == '<') = false) :
    stripTagsOnly T = T :=
  subScan_of_passThru (passThru_of_trig headTrig_tagStripTry T hT)

theorem tryCloseA_not_lt {c : Char} (hc : c ≠ '<') (rest : List Char) :
    tryCloseA (c :: rest) = none := by
  match rest with
  | [] => simp [tryCloseA, hc]
  | [b] => simp [tryCloseA, hc]
  | b :: r :: rest2 => simp [tryCloseA, hc]

theorem scanUntilCloseA_clean {T : List Char} (hT : ∀ c ∈ T, (c == '<') = false)
    (r2 : List Char) :
    scanUntilCloseA (T ++ ('<' :: '/' :: 'a' :: '>' :: r2)) = some (T, r2) := by
  induction T with
  | nil => rfl
  | cons c T ih =>
    have hc : c ≠ '<' := by simpa using hT c (by simp)
    have ih2 := ih (fun d hd => hT d (by simp [hd]))
    rw [List.cons_append, scanUntilCloseA, tryCloseA_not_lt hc, ih2]

theorem scanHref2_lit (U r4 : List Char) (hU : ∀ c ∈ U, (c == '"') = false) :
    scanHref2 (S " href=\x22" ++ (U ++ ('"' :: r4))) = some (U, r4) := by
  have e : scanHref2 (S " href=\x22" ++ (U ++ ('"' :: r4))) =
      (match (U ++ ('"' :: r4)).span (fun x => decide (x ≠ '"')) with
       | (url, '"' :: r5) => some (url, r5)
       | _ => none).orElse
        (fun _ => scanHref2 ('r' :: 'e' :: 'f' :: '=' :: '"' :: (U ++ ('"' :: r4)))) := rfl
  have hsp := takeWhile_append_stop (fun x => decide (x ≠ '"'))
    (fun c hc => by simpa using hU c hc) '"' (by simp) r4
  rw [e, List.span_eq_take_drop, hsp.1, hsp.2]
  rfl

theorem aTagTry_anchor (U T r2 : List Char)
    (hUq : ∀ c ∈ U, (c == '"') = false)
    (hUw : ∀ c ∈ U, isWS c = false)
    (hTl : ∀ c ∈ T, (c == '<') = false)
    (hTw : ∀ c ∈ T, isWS c = false)
    (hU0 : U ≠ []) :
    aTagTry ('<' :: 'a' :: (S " href=\x22" ++
        (U ++ ('"' :: ('>' :: (T ++ ('<' :: '/' :: 'a' :: '>' :: r2))))))) =
      some (T ++ S " (" ++ U ++ [')'], r2) := by
  have e1 : aTagTry ('<' :: 'a' :: (S " href=\x22" ++
        (U ++ ('"' :: ('>' :: (T ++ ('<' :: '/' :: 'a' :: '>' :: r2))))))) =
      (match scanHref2 (S " href=\x22" ++
          (U ++ ('"' :: ('>' :: (T ++ ('<' :: '/' :: 'a' :: '>' :: r2)))))) with
       | some (url, afterQuote) =>
         (match afterQuote.span (fun c => decide (c ≠ '>')) with
          | (_, '>' :: body) =>
            (match scanUntilCloseA body with
             | some (text, rem) => some (aToText url text, rem)
             | none => none)
          | _ => none)
       | none => none) := rfl
  rw [e1, scanHref2_lit U ('>' :: (T ++ ('<' :: '/' :: 'a' :: '>' :: r2))) hUq]
  have e2 : (match (('>' : Char) :: (T ++ ('<' :: '/' :: 'a' :: '>' :: r2))).span
        (fun c => decide (c ≠ '>')) with
      | (_, '>' :: body) =>
        (match scanUntilCloseA body with
         | some (text, rem) => some (aToText U text, rem)
         | none => none)
      | _ => none) =
      (match scanUntilCloseA (T ++ ('<' :: '/' :: 'a' :: '>' :: r2)) with
       | some (text, rem) => some (aToText U text, rem)
       | none => none) := by
    rw [List.span_eq_take_drop]
    rfl
  refine Eq.trans (Eq.trans ?_ e2) ?_
  · rfl
  rw [scanUntilCloseA_clean hTl r2]
  have hne : U.isEmpty = false := by simpa [List.isEmpty_iff] using hU0
  simp [aToText, stripTagsOnly_clean hTl, pyStrip_eq_self_of_nonWS hUw,
    pyStrip_eq_self_of_nonWS hTw, hne]

theorem splitNl_no_nl {l : List Char} (h : ∀ c ∈ l, c ≠ '\n') : splitNl l = [l] := by
  induction l with
  | nil => rfl
  | cons c rest ih =>
    have hc : c ≠ '\n' := h c (by simp)
    have ih2 := ih (fun d hd => h d (by simp [hd]))
    simp [splitNl, hc, ih2]

theorem collapseSTAux_false_append {a : List Char} (r : List Char)
    (ha : ∀ c ∈ a, isSpTab c = false) :
    collapseSTAux false (a ++ r) = a ++ collapseSTAux false r := by
  induction a with
  | nil => rfl
  | cons c a ih =>
    have hc := ha c (by simp)
    have ih2 := ih (fun d hd => ha d (by simp [hd]))
    simp [collapseSTAux, hc, ih2]

theorem collapseSTAux_false_id {a : List Char} (ha : ∀ c ∈ a, isSpTab c = false) :
    collapseSTAux false a = a := by
  have := collapseSTAux_false_append [] ha
  simpa [collapseSTAux] using this

theorem collapseST_mid (p T U s : List Char)
    (hp : ∀ c ∈ p, isSpTab c = false) (hT : ∀ c ∈ T, isSpTab c = false)
    (hU : ∀ c ∈ U, isSpTab c = false) (hs : ∀ c ∈ s, isSpTab c = false) :
    collapseST (p ++ (T ++ (' ' :: '(' :: (U ++ (')' :: s))))) =
      p ++ (T ++ (' ' :: '(' :: (U ++ (')' :: s)))) := by
  have h1 : isSpTab ' ' = true := by decide
  have h2 : isSpTab '(' = false := by decide
  have h3 : isSpTab ')' = false := by decide
  have e : collapseSTAux false (' ' :: '(' :: (U ++ (')' :: s))) =
      ' ' :: '(' :: collapseSTAux false (U ++ (')' :: s)) := by
    simp [collapseSTAux, h1, h2]
  have e2 : collapseSTAux false (')' :: s) = ')' :: collapseSTAux false s := by
    simp [collapseSTAux, h3]
  rw [collapseST, collapseSTAux_false_append _ hp, collapseSTAux_false_append _ hT,
    e, collapseSTAux_false_append _ hU, e2, collapseSTAux_false_id hs]

theorem getLast?_append_ne {α : Type} {l r : List α} (hr : r ≠ []) :
    (l ++ r).getLast? = r.getLast? := by
  rw [List.getLast?_append]
  cases hx : r.getLast? with
  | some x => rfl
  | none =>
    exfalso
    exact hr (List.getLast?_eq_none_iff.mp hx)

theorem goodL_mid (p T U s : List Char)
    (hpw : ∀ c ∈ p, isWS c = false) (hTw : ∀ c ∈ T, isWS c = false)
    (hsw : ∀ c ∈ s, isWS c = false)
    (hT0 : T ≠ []) :
    GoodL (p ++ (T ++ (' ' :: '(' :: (U ++ (')' :: s))))) := by
  constructor
  · intro c hc
    match p with
    | d :: p2 =>
      simp at hc
      subst hc
      exact hpw d (by simp)
    | [] =>
      match T, hT0 with
      | t :: T2, _ =>
        simp at hc
        subst hc
        exact hTw t (by simp)
  · intro c hc
    rw [getLast?_append_ne (by simp), getLast?_append_ne (by simp)] at hc
    match s with
    | x :: s2 =>
      rw [getLast?_cons_ne _ (by simp), getLast?_cons_ne _ (by simp),
        getLast?_append_ne (by simp), getLast?_cons_ne _ (by simp)] at hc
      exact hsw c (List.mem_of_mem_getLast? hc)
    | [] =>
      rw [getLast?_cons_ne _ (by simp), getLast?_cons_ne _ (by simp),
        getLast?_append_ne (by simp)] at hc
      simp at hc
      subst hc
      decide

theorem containsSub_append_mid (n p s : List Char) :
    containsSub n (p ++ (n ++ s)) = true := by
  induction p with
  | nil =>
    match hn : n ++ s with
    | [] =>
      have : n = [] := by
        cases n
        · rfl
        · simp at hn
      simp [containsSub, this]
    | c :: rest =>
      have hpre : n.isPrefixOf (n ++ s) = true := by
        rw [List.isPrefixOf_iff_prefix]
        exact List.prefix_append n s
      have hpre2 : n.isPrefixOf (c :: rest) = true := hn ▸ hpre
      simp [containsSub, hpre2]
  | cons c p ih =>
    rw [List.cons_append, containsSub, ih]
    simp

theorem cleanC_not_ws_char {c : Char} (h : isWS c = false) :
    c ≠ '\r' ∧ c ≠ '\n' ∧ isSpTab c = false := by
  refine ⟨?_, ?_, ?_⟩
  · intro he
    subst he
    exact absurd h (by decide)
  · intro he
    subst he
    exact absurd h (by decide)
  · cases hst : isSpTab c with
    | false => rfl
    | true =>
      exfalso
      have : c = ' ' ∨ c = '\t' := by simpa [isSpTab] using hst
      rcases this with h1 | h1 <;> (subst h1; exact absurd h (by decide))

theorem pyStrip_eq_self_of_goodL {l : List Char} (h : GoodL l) : pyStrip l = l := by
  match l with
  | [] => rfl
  | c :: rest =>
    have hc : isWS c = false := h.1 c rfl
    rw [pyStrip, pyLstrip_cons_not_ws hc, pyRstrip_eq_self_of_good h]

/-- C6 (amended): on inputs whose free parts use no markup-significant
characters and no whitespace, the round trip holds exactly: the anchor
becomes `T (U)` in place and the output has no `<` and no `>`. -/
theorem C6_anchor_roundtrip (p s T U : List Char)
    (hp : p.all cleanC = true) (hs : s.all cleanC = true)
    (hT : T.all cleanC = true) (hU : U.all cleanC = true)
    (hT0 : T ≠ []) (hU0 : U ≠ []) :
    htmlToTextSimple (p ++ S "<a href=\x22" ++ U ++ S "\x22>" ++ T ++ S "</a>" ++ s) =
      p ++ (T ++ S " (" ++ U ++ [')']) ++ s ∧
    containsSub (T ++ S " (" ++ U ++ [')'])
      (htmlToTextSimple (p ++ S "<a href=\x22" ++ U ++ S "\x22>" ++ T ++ S "</a>" ++ s)) =
      true ∧
    '<' ∉ htmlToTextSimple (p ++ S "<a href=\x22" ++ U ++ S "\x22>" ++ T ++ S "</a>" ++ s) ∧
    '>' ∉ htmlToTextSimple (p ++ S "<a href=\x22" ++ U ++ S "\x22>" ++ T ++ S "</a>" ++ s) := by
  have hpP : ∀ c ∈ p, cleanC c = true := List.all_eq_true.mp hp
  have hsP : ∀ c ∈ s, cleanC c = true := List.all_eq_true.mp hs
  have hTP : ∀ c ∈ T, cleanC c = true := List.all_eq_true.mp hT
  have hUP : ∀ c ∈ U, cleanC c = true := List.all_eq_true.mp hU
  have fLt : ∀ {l : List Char}, (∀ c ∈ l, cleanC c = true) →
      ∀ c ∈ l, (c == '<') = false :=
    fun hl c hc => by simpa using (cleanC_props (hl c hc)).1
  have fAmp : ∀ {l : List Char}, (∀ c ∈ l, cleanC c = true) →
      ∀ c ∈ l, (c == '&') = false :=
    fun hl c hc => by simpa using (cleanC_props (hl c hc)).2.2.1
  have fQuote : ∀ {l : List Char}, (∀ c ∈ l, cleanC c = true) →
      ∀ c ∈ l, (c == '"') = false :=
    fun hl c hc => by simpa using (cleanC_props (hl c hc)).2.2.2.1
  have fWs : ∀ {l : List Char}, (∀ c ∈ l, cleanC c = true) →
      ∀ c ∈ l, isWS c = false :=
    fun hl c hc => (cleanC_props (hl c hc)).2.2.2.2
  have fSpTab : ∀ {l : List Char}, (∀ c ∈ l, cleanC c = true) →
      ∀ c ∈ l, isSpTab c = false :=
    fun hl c hc => (cleanC_not_ws_char (fWs hl c hc)).2.2
  have hXeq : p ++ S "<a href=\x22" ++ U ++ S "\x22>" ++ T ++ S "</a>" ++ s =
      p ++ ('<' :: 'a' :: (S " href=\x22" ++
        (U ++ ('"' :: ('>' :: (T ++ ('<' :: '/' :: 'a' :: '>' :: s))))))) := by
    simp only [List.append_assoc]
    rfl
  rw [hXeq]
  have mkPass : ∀ (M : List Char → Option (List Char × List Char)),
      HeadTrig M (fun c => c == '<') →
      (∀ rest, M ('<' :: 'a' :: rest) = none) →
      (∀ rest, M ('<' :: '/' :: 'a' :: rest) = none) →
      PassThru M ('<' :: 'a' :: (S " href=\x22" ++
        (U ++ ('"' :: ('>' :: (T ++ ('<' :: '/' :: 'a' :: '>' :: s))))))) := by
    intro M htM hMa hMb
    exact passThru_append
      (passThru_cons_lit htM '<' (S "a href=\x22") (by decide)
        (fun rest => hMa (S " href=\x22" ++ rest)))
      (passThru_append (passThru_of_trig htM U (fLt hUP))
        (passThru_append (passThru_of_trig htM (S "\x22>") (by decide))
          (passThru_append (passThru_of_trig htM T (fLt hTP))
            (passThru_append
              (passThru_cons_lit htM '<' (S "/a>") (by decide)
                (fun rest => hMb ('>' :: rest)))
              (passThru_of_trig htM s (fLt hsP))))))
  have st1 := subScan_of_passThru (passThru_append
    (passThru_of_trig headTrig_brTry p (fLt hpP))
    (mkPass brTry headTrig_brTry brTry_lt_a (fun rest => brTry_lt_slash ('a' :: rest))))
  have st2 := subScan_of_passThru (passThru_append
    (passThru_of_trig headTrig_tagNlTry p (fLt hpP))
    (mkPass tagNlTry headTrig_tagNlTry tagNlTry_lt_a tagNlTry_lt_slash_a))
  have st3 := subScan_of_passThru (passThru_append
    (passThru_of_trig headTrig_liOpenTry p (fLt hpP))
    (mkPass liOpenTry headTrig_liOpenTry liOpenTry_lt_a
      (fun rest => liOpenTry_lt_slash ('a' :: rest))))
  have st4 := subScan_of_passThru (passThru_append
    (passThru_of_trig headTrig_liCloseTry p (fLt hpP))
    (mkPass liCloseTry headTrig_liCloseTry liCloseTry_lt_a liCloseTry_lt_slash_a))
  have hanchor := aTagTry_anchor U T s (fQuote hUP) (fWs hUP) (fLt hTP) (fWs hTP) hU0
  have hlenC : s.length < ('<' :: 'a' :: (S " href=\x22" ++
      (U ++ ('"' :: ('>' :: (T ++ ('<' :: '/' :: 'a' :: '>' :: s))))))).length := by
    have h7 : (S " href=\x22").length = 7 := rfl
    simp [List.length_append, h7]
    omega
  have st5 : subScan aTagTry (p ++ ('<' :: 'a' :: (S " href=\x22" ++
      (U ++ ('"' :: ('>' :: (T ++ ('<' :: '/' :: 'a' :: '>' :: s)))))))) =
      p ++ ((T ++ S " (" ++ U ++ [')']) ++ s) :=
    subScan_match2 aTagTry (passThru_of_trig headTrig_aTagTry p (fLt hpP))
      (passThru_of_trig headTrig_aTagTry s (fLt hsP)) hanchor hlenC
  have hZY : p ++ ((T ++ S " (" ++ U ++ [')']) ++ s) =
      p ++ (T ++ (' ' :: '(' :: (U ++ (')' :: s)))) := by
    simp only [List.append_assoc]
    rfl
  have hmemY : ∀ c ∈ p ++ (T ++ (' ' :: '(' :: (U ++ (')' :: s)))),
      cleanC c = true ∨ c = ' ' ∨ c = '(' ∨ c = ')' := by
    intro c hc
    simp only [List.mem_append, List.mem_cons] at hc
    rcases hc with h | h | h | h | h | h | h
    · exact Or.inl (hpP c h)
    · exact Or.inl (hTP c h)
    · exact Or.inr (Or.inl h)
    · exact Or.inr (Or.inr (Or.inl h))
    · exact Or.inl (hUP c h)
    · exact Or.inr (Or.inr (Or.inr h))
    · exact Or.inl (hsP c h)
  have hYlt : ∀ c ∈ p ++ (T ++ (' ' :: '(' :: (U ++ (')' :: s)))),
      (c == '<') = false := by
    intro c hc
    rcases hmemY c hc with h | h | h | h
    · simpa using (cleanC_props h).1
    all_goals (subst h; decide)
  have hYamp : ∀ c ∈ p ++ (T ++ (' ' :: '(' :: (U ++ (')' :: s)))),
      (c == '&') = false := by
    intro c hc
    rcases hmemY c hc with h | h | h | h
    · simpa using (cleanC_props h).2.2.1
    all_goals (subst h; decide)
  have hYnl : ∀ c ∈ p ++ (T ++ (' ' :: '(' :: (U ++ (')' :: s)))), c ≠ '\n' := by
    intro c hc
    rcases hmemY c hc with h | h | h | h
    · exact (cleanC_not_ws_char (cleanC_props h).2.2.2.2).2.1
    all_goals (subst h; decide)
  have hYnlB : ∀ c ∈ p ++ (T ++ (' ' :: '(' :: (U ++ (')' :: s)))),
      (c == '\n') = false := fun c hc => by simpa using hYnl c hc
  have hYcr : ∀ c ∈ p ++ (T ++ (' ' :: '(' :: (U ++ (')' :: s)))),
      (decide (c ≠ '\r')) = true := by
    intro c hc
    rcases hmemY c hc with h | h | h | h
    · simpa using (cleanC_not_ws_char (cleanC_props h).2.2.2.2).1
    all_goals (subst h; decide)
  have st6 : stripTagsOnly (p ++ (T ++ (' ' :: '(' :: (U ++ (')' :: s))))) =
      p ++ (T ++ (' ' :: '(' :: (U ++ (')' :: s)))) :=
    subScan_of_passThru (passThru_of_trig headTrig_tagStripTry _ hYlt)
  have st7 : htmlUnescape (p ++ (T ++ (' ' :: '(' :: (U ++ (')' :: s))))) =
      p ++ (T ++ (' ' :: '(' :: (U ++ (')' :: s)))) :=
    subScan_of_passThru (passThru_of_trig headTrig_entityTry _ hYamp)
  have st8 : removeCR (p ++ (T ++ (' ' :: '(' :: (U ++ (')' :: s))))) =
      p ++ (T ++ (' ' :: '(' :: (U ++ (')' :: s)))) := by
    rw [removeCR]
    exact List.filter_eq_self.mpr hYcr
  have st9 : splitNl (p ++ (T ++ (' ' :: '(' :: (U ++ (')' :: s))))) =
      [p ++ (T ++ (' ' :: '(' :: (U ++ (')' :: s))))] := splitNl_no_nl hYnl
  have st9b := collapseST_mid p T U s (fSpTab hpP) (fSpTab hTP) (fSpTab hUP) (fSpTab hsP)
  have hgood := goodL_mid p T U s (fWs hpP) (fWs hTP) (fWs hsP) hT0
  have st9c : pyRstrip (p ++ (T ++ (' ' :: '(' :: (U ++ (')' :: s))))) =
      p ++ (T ++ (' ' :: '(' :: (U ++ (')' :: s)))) := pyRstrip_eq_self_of_good hgood
  have st10 : collapseNl3 (p ++ (T ++ (' ' :: '(' :: (U ++ (')' :: s))))) =
      p ++ (T ++ (' ' :: '(' :: (U ++ (')' :: s)))) :=
    subScan_of_passThru (passThru_of_trig headTrig_nl3Try _ hYnlB)
  have st11 : pyStrip (p ++ (T ++ (' ' :: '(' :: (U ++ (')' :: s))))) =
      p ++ (T ++ (' ' :: '(' :: (U ++ (')' :: s)))) := pyStrip_eq_self_of_goodL hgood
  have hne : (p ++ ('<' :: 'a' :: (S " href=\x22" ++
      (U ++ ('"' :: ('>' :: (T ++ ('<' :: '/' :: 'a' :: '>' :: s)))))))).isEmpty = false := by
    cases p <;> rfl
  have hmain : htmlToTextSimple (p ++ ('<' :: 'a' :: (S " href=\x22" ++
      (U ++ ('"' :: ('>' :: (T ++ ('<' :: '/' :: 'a' :: '>' :: s)))))))) =
      p ++ (T ++ (' ' :: '(' :: (U ++ (')' :: s)))) := by
    simp only [htmlToTextSimple, hne, Bool.false_eq_true, if_false]
    rw [st1, st2, st3, st4, st5, hZY, st6, st7, st8, st9]
    simp only [List.map_cons, List.map_nil]
    rw [st9b, st9c]
    have hj : joinNL [p ++ (T ++ (' ' :: '(' :: (U ++ (')' :: s))))] =
        p ++ (T ++ (' ' :: '(' :: (U ++ (')' :: s)))) := rfl
    rw [hj, st10, st11]
  refine ⟨?_, ?_, ?_, ?_⟩
  · rw [hmain]
    simp only [List.append_assoc]
    rfl
  · rw [hmain]
    have hNs : p ++ ((T ++ S " (" ++ U ++ [')']) ++ s) =
        p ++ (T ++ (' ' :: '(' :: (U ++ (')' :: s)))) := hZY
    have h2 := containsSub_append_mid (T ++ S " (" ++ U ++ [')']) p s
    rw [← hNs]
    exact h2
  · rw [hmain]
    intro hmem
    rcases hmemY _ hmem with h | h | h | h
    · exact absurd h (by decide)
    all_goals simp at h
  · rw [hmain]
    intro hmem
    rcases hmemY _ hmem with h | h | h | h
    · exact absurd h (by decide)
    all_goals simp at h


/-- C6 counterexample: the input `"1 < 2 <a href=\x22U\x22>T</a>"` contains a
balanced anchor, and the normalized output does contain `T (U)`, but the
stray `<` of `1 < 2` survives every stage (the tag-stripping regex needs a
closing `>`), so the output is not free of `<`. -/
theorem C6_counterexample :
    containsSub (S "<a href=\x22U\x22>T</a>") (S "1 < 2 <a href=\x22U\x22>T</a>") = true ∧
    htmlToTextSimple (S "1 < 2 <a href=\x22U\x22>T</a>") = S "1 < 2 T (U)" ∧
    '<' ∈ htmlToTextSimple (S "1 < 2 <a href=\x22U\x22>T</a>") := by
  decide

theorem C6_anchor_roundtrip_witness :
    (S "x:").all cleanC = true ∧
    htmlToTextSimple (S "x:" ++ S "<a href=\x22" ++ S "http://u/1" ++ S "\x22>" ++
        S "Text" ++ S "</a>" ++ S "end.") =
      S "x:" ++ (S "Text" ++ S " (" ++ S "http://u/1" ++ [')']) ++ S "end." ∧
    '<' ∉ htmlToTextSimple (S "x:" ++ S "<a href=\x22" ++ S "http://u/1" ++ S "\x22>" ++
        S "Text" ++ S "</a>" ++ S "end.") :=
  ⟨by decide,
   (C6_anchor_roundtrip (S "x:") (S "end.") (S "Text") (S "http://u/1")
     (by decide) (by decide) (by decide) (by decide) (by decide) (by decide)).1,
   (C6_anchor_roundtrip (S "x:") (S "end.") (S "Text") (S "http://u/1")
     (by decide) (by decide) (by decide) (by decide) (by decide) (by decide)).2.2.1⟩

end S2P
